import Mathlib

/-!
# Label grammar of the Goma Docker provider

A shallow embedding of `internal/helper.go` and `internal/sync.go` of
`jkaninda/goma-docker-provider`, and theorems about it.

Conventions of the embedding:

* A Go `string` is a finite sequence of bytes: `GoString := List (Fin 256)`.
  Comparison (`<`, `sort.Strings`), slicing (`s[1:]`), `strings.HasPrefix`
  and `strings.TrimPrefix` are bytewise in Go and bytewise here.  `bytes "lit"`
  is the UTF-8 encoding of a literal.
* A Go `map[string]string` is an association list with pairwise distinct keys
  (`NodupKeys`); `range` visits the entries in list order, so every visiting
  order of a map is some such list.
* A run-time panic (index out of range, nil dereference) is the result `none`.
* A nil slice and an empty slice are both the empty list.
* Go `int` is 64 bits wide.
-/

namespace Goma

/-! ## Strings -/

/-- One byte of a Go string. -/
abbrev Byte := Fin 256

/-- A Go `string`: a sequence of bytes. -/
abbrev GoString := List Byte

/-- UTF-8 encoding of one Unicode scalar value. -/
def utf8EncodeChar (c : Char) : GoString :=
  let v := c.toNat
  if v ≤ 0x7f then [Fin.ofNat v]
  else if v ≤ 0x7ff then [Fin.ofNat (0xc0 + v / 64), Fin.ofNat (0x80 + v % 64)]
  else if v ≤ 0xffff then
    [Fin.ofNat (0xe0 + v / 4096), Fin.ofNat (0x80 + v / 64 % 64), Fin.ofNat (0x80 + v % 64)]
  else
    [Fin.ofNat (0xf0 + v / 262144), Fin.ofNat (0x80 + v / 4096 % 64),
      Fin.ofNat (0x80 + v / 64 % 64), Fin.ofNat (0x80 + v % 64)]

/-- The Go string written by a literal: the UTF-8 bytes of its characters. -/
def bytes (s : String) : GoString :=
  s.data.flatMap utf8EncodeChar

/-- Go `strings.HasPrefix(s, pfx)`. -/
def hasPrefix (s pfx : GoString) : Bool :=
  pfx.isPrefixOf s

/-- Go `strings.TrimPrefix(s, pfx)`. -/
def trimPrefix (s pfx : GoString) : GoString :=
  if hasPrefix s pfx then s.drop pfx.length else s

/-- Go `strings.Split(s, sep)` for a one-byte separator: the pieces of `s`
between consecutive occurrences of `sep`; always at least one piece. -/
def stringsSplit (s : GoString) (sep : Byte) : List GoString :=
  match s with
  | [] => [[]]
  | c :: cs =>
    if c = sep then [] :: stringsSplit cs sep
    else
      match stringsSplit cs sep with
      | [] => [[c]]
      | p :: ps => (c :: p) :: ps

/-- The UTF-8 encodings of the code points for which Go `unicode.IsSpace`
holds: U+0009..U+000D, U+0020, U+0085, U+00A0, U+1680, U+2000..U+200A,
U+2028, U+2029, U+202F, U+205F, U+3000. -/
def spaceEncodings : List GoString :=
  [[0x09], [0x0a], [0x0b], [0x0c], [0x0d], [0x20],
   [0xc2, 0x85], [0xc2, 0xa0], [0xe1, 0x9a, 0x80],
   [0xe2, 0x80, 0x80], [0xe2, 0x80, 0x81], [0xe2, 0x80, 0x82], [0xe2, 0x80, 0x83],
   [0xe2, 0x80, 0x84], [0xe2, 0x80, 0x85], [0xe2, 0x80, 0x86], [0xe2, 0x80, 0x87],
   [0xe2, 0x80, 0x88], [0xe2, 0x80, 0x89], [0xe2, 0x80, 0x8a],
   [0xe2, 0x80, 0xa8], [0xe2, 0x80, 0xa9], [0xe2, 0x80, 0xaf],
   [0xe2, 0x81, 0x9f], [0xe3, 0x80, 0x80]]

/-- Width in bytes of the white-space rune `s` begins with, `0` if it begins
with none. -/
def leadingSpaceWidth (s : GoString) : Nat :=
  match spaceEncodings.find? (fun p => p.isPrefixOf s) with
  | some p => p.length
  | none => 0

/-- Width in bytes of the white-space rune `s` ends with, `0` if it ends with
none. -/
def trailingSpaceWidth (s : GoString) : Nat :=
  match spaceEncodings.find? (fun p => p.isSuffixOf s) with
  | some p => p.length
  | none => 0

/-- Go `strings.TrimLeftFunc(s, unicode.IsSpace)`: at most `fuel` runes are
removed. -/
def trimLeftSpace (fuel : Nat) (s : GoString) : GoString :=
  match fuel with
  | 0 => s
  | n + 1 =>
    if leadingSpaceWidth s = 0 then s
    else trimLeftSpace n (s.drop (leadingSpaceWidth s))

/-- Go `strings.TrimRightFunc(s, unicode.IsSpace)`: at most `fuel` runes are
removed. -/
def trimRightSpace (fuel : Nat) (s : GoString) : GoString :=
  match fuel with
  | 0 => s
  | n + 1 =>
    if trailingSpaceWidth s = 0 then s
    else trimRightSpace n (s.take (s.length - trailingSpaceWidth s))

/-- Go `strings.TrimSpace(s)`: `s` without its leading and trailing white
space.  Every rune is at least one byte wide, so `s.length` steps suffice. -/
def trimSpace (s : GoString) : GoString :=
  let t := trimLeftSpace s.length s
  trimRightSpace t.length t

/-- Go `strconv.ParseBool`. -/
def strconvParseBool (s : GoString) : Option Bool :=
  if s = bytes "1" ∨ s = bytes "t" ∨ s = bytes "T" ∨ s = bytes "TRUE" ∨ s = bytes "true"
      ∨ s = bytes "True" then some true
  else if s = bytes "0" ∨ s = bytes "f" ∨ s = bytes "F" ∨ s = bytes "FALSE"
      ∨ s = bytes "false" ∨ s = bytes "False" then some false
  else none

/-- Width of the Go `int` type. -/
def intSize : Nat := 64

/-- An ASCII decimal digit. -/
def isDigit (b : Byte) : Bool :=
  decide (0x30 ≤ b.val ∧ b.val ≤ 0x39)

/-- The number written by a sequence of decimal digits. -/
def digitsValue (ds : GoString) : Nat :=
  ds.foldl (fun n ch => n * 10 + (ch.val - 0x30)) 0

/-- Go `strconv.Atoi`: an optional sign followed by one or more decimal
digits, whose value fits in `int`; `none` is a non-nil error. -/
def strconvAtoi (s : GoString) : Option Int :=
  let neg : Bool := s.head? = some 0x2d
  let ds : GoString := if s.head? = some 0x2d ∨ s.head? = some 0x2b then s.drop 1 else s
  if ds = [] ∨ ds.all isDigit = false then none
  else
    let v : Int := if neg then -(digitsValue ds : Int) else (digitsValue ds : Int)
    if -(2 : Int) ^ (intSize - 1) ≤ v ∧ v < (2 : Int) ^ (intSize - 1) then some v else none

/-- Go `fmt.Sprintf("%d", n)` for an unsigned `n`. -/
def formatDecimal (n : Nat) : GoString :=
  bytes (Nat.repr n)

/-! ## Maps -/

/-- A Go `map[string]string`. -/
abbrev LabelMap := List (GoString × GoString)

/-- The keys of a map are pairwise distinct. -/
def NodupKeys (m : LabelMap) : Prop :=
  (m.map Prod.fst).Nodup

/-- Go `value, exists := m[key]`. -/
def lookup (m : LabelMap) (key : GoString) : Option GoString :=
  match m with
  | [] => none
  | (k, v) :: rest => if k = key then some v else lookup rest key

/-- Go `m[key]`: the zero value `""` for a missing key. -/
def index (m : LabelMap) (key : GoString) : GoString :=
  (lookup m key).getD []

/-- Go `m[key] = value`. -/
def assign (m : LabelMap) (key value : GoString) : LabelMap :=
  match m with
  | [] => [(key, value)]
  | (k, v) :: rest => if k = key then (key, value) :: rest else (k, v) :: assign rest key value

/-! ## `helper.go` -/

/-- Function `getLabel` of `helper.go`. -/
def getLabel (labels : LabelMap) (key defaultValue : GoString) : GoString :=
  match lookup labels key with
  | some value => if value ≠ [] then value else defaultValue
  | none => defaultValue

/-- Function `getRouteLabel` of `helper.go`. -/
def getRouteLabel (labels : LabelMap) (key defaultValue : GoString) : GoString :=
  match lookup labels key with
  | some value => if value ≠ [] then value else defaultValue
  | none => defaultValue

/-- Function `parseBool` of `helper.go`. -/
def parseBool (labels : LabelMap) (key : GoString) (defaultValue : Bool) : Bool :=
  match lookup labels key with
  | some value =>
    match strconvParseBool value with
    | some parsed => parsed
    | none => defaultValue
  | none => defaultValue

/-- Function `parseBoolFromMap` of `helper.go`. -/
def parseBoolFromMap (labels : LabelMap) (key : GoString) (defaultValue : Bool) : Bool :=
  match lookup labels key with
  | some value =>
    match strconvParseBool value with
    | some parsed => parsed
    | none => defaultValue
  | none => defaultValue

/-- Function `parseList` of `helper.go`: the loop appends each non-empty
trimmed item to `result`. -/
def parseList (value : GoString) : List GoString :=
  let items := stringsSplit value 0x2c
  items.foldl
    (fun result item =>
      let trimmed := trimSpace item
      if trimmed ≠ [] then result ++ [trimmed] else result)
    []

/-- Function `parseIntList` of `helper.go`. -/
def parseIntList (value : GoString) : List Int :=
  let items := stringsSplit value 0x2c
  items.foldl
    (fun result item =>
      let trimmed := trimSpace item
      if trimmed ≠ [] then
        match strconvAtoi trimmed with
        | some val => result ++ [val]
        | none => result
      else result)
    []

/-! ## `types.go` -/

/-- Struct `SecurityTLS` of `types.go`. -/
structure SecurityTLS where
  InsecureSkipVerify : Bool := false
  deriving DecidableEq, Repr

/-- Struct `Security` of `types.go`. -/
structure Security where
  ForwardHostHeaders : Bool := false
  EnableExploitProtection : Bool := false
  TLS : SecurityTLS := {}
  deriving DecidableEq, Repr

/-- Struct `RouteHealthCheck` of `types.go`. -/
structure RouteHealthCheck where
  Path : GoString := []
  Interval : GoString := []
  Timeout : GoString := []
  HealthyStatuses : List Int := []
  deriving DecidableEq, Repr

/-- Struct `Route` of `types.go`; the defaults are the Go zero values. -/
structure Route where
  Name : GoString := []
  Path : GoString := []
  Rewrite : GoString := []
  Priority : Int := 0
  Enabled : Bool := false
  Hosts : List GoString := []
  Methods : List GoString := []
  Target : GoString := []
  HealthCheck : RouteHealthCheck := {}
  Security : Security := {}
  DisableMetrics : Bool := false
  Middlewares : List GoString := []
  deriving DecidableEq, Repr

/-! ## Runtime units -/

/-- The fields of Docker `container.Summary` read by the provider. -/
structure Container where
  Names : List GoString
  Labels : LabelMap
  deriving DecidableEq, Repr

/-- The fields of Docker `swarm.Service` read by the provider: `Spec.Name`,
`Spec.Labels` and `Spec.EndpointSpec`, a pointer that may be nil, of which only
the `TargetPort` (a `uint32`) of each entry of `Ports` is read. -/
structure Service where
  Name : GoString
  Labels : LabelMap
  EndpointSpec : Option (List Nat)
  deriving DecidableEq, Repr

/-! ## `sync.go` -/

/-- The byte `.`. -/
def dot : Byte := 0x2e

/-- The byte `\n`. -/
def newline : Byte := 0x0a

/-- Regular expression `namedRoutePattern` of `sync.go`,
`^goma\.routes\.([^.]+)\.(.+)$`, as `FindStringSubmatch`: the whole match and
the two groups, or `none` (nil) when the key does not match.  `[^.]+` is the
longest dot-free run after `goma.routes.`; in Go `.` matches every character
but the line feed and `$` only the end of the text. -/
def namedRoutePattern (key : GoString) : Option (List GoString) :=
  if hasPrefix key (bytes "goma.routes.") then
    let rest := key.drop (bytes "goma.routes.").length
    let routeName := rest.takeWhile (fun b => b ≠ dot)
    match rest.dropWhile (fun b => b ≠ dot) with
    | [] => none
    | _ :: field =>
      if routeName ≠ [] ∧ field ≠ [] ∧ newline ∉ field then some [key, routeName, field]
      else none
  else none

/-- Go `routeMap[routeName] = true` on a `map[string]bool` used as a set. -/
def setAdd (routeMap : List GoString) (routeName : GoString) : List GoString :=
  if routeName ∈ routeMap then routeMap else routeMap ++ [routeName]

/-- Go `sort.Strings`: ascending in the bytewise order of strings.  Strings
that compare equal are the same string, so every sort that sorts returns this
list, whichever algorithm the library runs. -/
def sortStrings (l : List GoString) : List GoString :=
  l.insertionSort (fun a b => a ≤ b)

/-- Method `extractRouteNames` of `sync.go`. -/
def extractRouteNames (labels : LabelMap) : List GoString :=
  let routeMap := labels.foldl
    (fun routeMap kv =>
      match namedRoutePattern kv.1 with
      | some ms => setAdd routeMap (ms.getD 1 [])
      | none => routeMap)
    []
  let routes := routeMap.foldl (fun routes route => routes ++ [route]) []
  sortStrings routes

/-- The loop of `parseNamedContainerRoute` and `parseNamedServiceRoute` that
collects the labels under `pfx` with the bare field name as key. -/
def extractRouteLabels (labels : LabelMap) (pfx : GoString) : LabelMap :=
  labels.foldl
    (fun routeLabels kv =>
      if hasPrefix kv.1 pfx then assign routeLabels (trimPrefix kv.1 pfx) kv.2
      else routeLabels)
    []

/-- The scheme coercion shared by the four route parsers. -/
def coerceScheme (scheme : GoString) : GoString :=
  if scheme ≠ bytes "http" ∧ scheme ≠ bytes "https" then bytes "http" else scheme

/-- Method `parseRouteFields` of `sync.go`.  Each statement of the Go body
writes one field of `*route` and reads none, so the body is one record update
with the statements in source order. -/
def parseRouteFields (route : Route) (labels : LabelMap) : Route :=
  { route with
    Rewrite :=
      if index labels (bytes "rewrite") ≠ [] then index labels (bytes "rewrite")
      else route.Rewrite
    Priority :=
      if index labels (bytes "priority") ≠ [] then
        match strconvAtoi (index labels (bytes "priority")) with
        | some val => val
        | none => route.Priority
      else route.Priority
    Hosts :=
      if index labels (bytes "hosts") ≠ [] then parseList (index labels (bytes "hosts"))
      else route.Hosts
    Methods :=
      if index labels (bytes "methods") ≠ [] then
        parseList (index labels (bytes "methods"))
      else route.Methods
    HealthCheck :=
      if index labels (bytes "health_check.path") ≠ [] then
        { Path := index labels (bytes "health_check.path")
          Interval := getRouteLabel labels (bytes "health_check.interval") (bytes "30s")
          Timeout := getRouteLabel labels (bytes "health_check.timeout") (bytes "5s")
          HealthyStatuses :=
            if index labels (bytes "health_check.healthy_statuses") ≠ [] then
              parseIntList (index labels (bytes "health_check.healthy_statuses"))
            else [] }
      else route.HealthCheck
    Security :=
      { ForwardHostHeaders := parseBoolFromMap labels (bytes "security.forward_host_headers") true
        EnableExploitProtection :=
          parseBoolFromMap labels (bytes "security.enable_exploit_protection") false
        TLS :=
          { InsecureSkipVerify :=
              parseBoolFromMap labels (bytes "security.tls.insecure_skip_verify") false } }
    DisableMetrics := parseBoolFromMap labels (bytes "disable_metrics") false
    Middlewares :=
      if index labels (bytes "middlewares") ≠ [] then
        parseList (index labels (bytes "middlewares"))
      else route.Middlewares }

/-- Method `parseRouteLabels` of `sync.go`.  Each statement of the Go body
writes one field of `*route` and reads none, so the body is one record update
with the statements in source order. -/
def parseRouteLabels (route : Route) (labels : LabelMap) : Route :=
  { route with
    Rewrite :=
      if index labels (bytes "goma.rewrite") ≠ [] then index labels (bytes "goma.rewrite")
      else route.Rewrite
    Priority :=
      if index labels (bytes "goma.priority") ≠ [] then
        match strconvAtoi (index labels (bytes "goma.priority")) with
        | some val => val
        | none => route.Priority
      else route.Priority
    Hosts :=
      if index labels (bytes "goma.hosts") ≠ [] then parseList (index labels (bytes "goma.hosts"))
      else route.Hosts
    Methods :=
      if index labels (bytes "goma.methods") ≠ [] then
        parseList (index labels (bytes "goma.methods"))
      else route.Methods
    HealthCheck :=
      if index labels (bytes "goma.health_check.path") ≠ [] then
        { Path := index labels (bytes "goma.health_check.path")
          Interval := getLabel labels (bytes "goma.health_check.interval") (bytes "30s")
          Timeout := getLabel labels (bytes "goma.health_check.timeout") (bytes "5s")
          HealthyStatuses :=
            if index labels (bytes "goma.health_check.healthy_statuses") ≠ [] then
              parseIntList (index labels (bytes "goma.health_check.healthy_statuses"))
            else [] }
      else route.HealthCheck
    Security :=
      { ForwardHostHeaders := parseBool labels (bytes "goma.security.forward_host_headers") true
        EnableExploitProtection :=
          parseBool labels (bytes "goma.security.enable_exploit_protection") false
        TLS :=
          { InsecureSkipVerify :=
              parseBool labels (bytes "goma.security.tls.insecure_skip_verify") false } }
    DisableMetrics := parseBool labels (bytes "goma.disable_metrics") false
    Middlewares :=
      if index labels (bytes "goma.middlewares") ≠ [] then
        parseList (index labels (bytes "goma.middlewares"))
      else route.Middlewares }

/-- Method `parseNamedContainerRoute` of `sync.go`; the returned pointer is
never nil. -/
def parseNamedContainerRoute (labels : LabelMap) (routeName containerName : GoString) : Route :=
  let pfx := bytes "goma.routes." ++ routeName ++ bytes "."
  let routeLabels := extractRouteLabels labels pfx
  let path :=
    match lookup routeLabels (bytes "path") with
    | some path => if path = [] then bytes "/" else path
    | none => bytes "/"
  let route : Route :=
    { Name := getRouteLabel routeLabels (bytes "name") (containerName ++ bytes "-" ++ routeName)
      Path := path
      Enabled := parseBoolFromMap routeLabels (bytes "enabled") true }
  let port := getRouteLabel routeLabels (bytes "port") (bytes "80")
  let scheme := coerceScheme (getLabel labels (bytes "goma.scheme") (bytes "http"))
  let route := { route with Target := scheme ++ bytes "://" ++ containerName ++ bytes ":" ++ port }
  parseRouteFields route routeLabels

/-- The port of a service route: the label value, else the first declared
endpoint port, else `80`.  `service.Spec.EndpointSpec.Ports` is evaluated only
when the label value is empty (`&&` short-circuits) and panics on a nil
`EndpointSpec`. -/
def servicePort (service : Service) (port : GoString) : Option GoString :=
  if port = [] then
    match service.EndpointSpec with
    | none => none
    | some ports =>
      match ports with
      | targetPort :: _ => some (formatDecimal targetPort)
      | [] => some (bytes "80")
  else some port

/-- Method `parseNamedServiceRoute` of `sync.go`; `none` is a nil-pointer
panic, and a returned pointer is never nil. -/
def parseNamedServiceRoute (service : Service) (labels : LabelMap)
    (routeName serviceName : GoString) : Option Route :=
  let pfx := bytes "goma.routes." ++ routeName ++ bytes "."
  let routeLabels := extractRouteLabels labels pfx
  let path :=
    match lookup routeLabels (bytes "path") with
    | some path => if path = [] then bytes "/" else path
    | none => bytes "/"
  let route : Route :=
    { Name := getRouteLabel routeLabels (bytes "name") (serviceName ++ bytes "-" ++ routeName)
      Path := path
      Enabled := parseBoolFromMap routeLabels (bytes "enabled") true }
  match servicePort service (index routeLabels (bytes "port")) with
  | none => none
  | some port =>
    let scheme := coerceScheme (getLabel labels (bytes "goma.scheme") (bytes "http"))
    let route := { route with Target := scheme ++ bytes "://" ++ serviceName ++ bytes ":" ++ port }
    some (parseRouteFields route routeLabels)

/-- Method `parseSingleContainerRoute` of `sync.go`; the returned pointer is
never nil. -/
def parseSingleContainerRoute (labels : LabelMap) (containerName : GoString) : Route :=
  let path := if index labels (bytes "goma.path") = [] then bytes "/"
    else index labels (bytes "goma.path")
  let route : Route :=
    { Name := getLabel labels (bytes "goma.name") containerName
      Path := path
      Enabled := true }
  let port := getLabel labels (bytes "goma.port") (bytes "80")
  let scheme := coerceScheme (getLabel labels (bytes "goma.scheme") (bytes "http"))
  let route := { route with Target := scheme ++ bytes "://" ++ containerName ++ bytes ":" ++ port }
  parseRouteLabels route labels

/-- Method `parseSingleServiceRoute` of `sync.go`; `none` is a nil-pointer
panic, and a returned pointer is never nil. -/
def parseSingleServiceRoute (service : Service) (labels : LabelMap)
    (serviceName : GoString) : Option Route :=
  let path := if index labels (bytes "goma.path") = [] then bytes "/"
    else index labels (bytes "goma.path")
  let route : Route :=
    { Name := getLabel labels (bytes "goma.name") serviceName
      Path := path
      Enabled := true }
  match servicePort service (index labels (bytes "goma.port")) with
  | none => none
  | some port =>
    let scheme := coerceScheme (getLabel labels (bytes "goma.scheme") (bytes "http"))
    let route := { route with Target := scheme ++ bytes "://" ++ serviceName ++ bytes ":" ++ port }
    some (parseRouteLabels route labels)

/-- Go `container.Names[0][1:]`: `none` (an index-out-of-range panic) when the
list of names is empty or the first name is the empty string. -/
def firstNameTail (names : List GoString) : Option GoString :=
  match names with
  | [] => none
  | name :: _ =>
    match name with
    | [] => none
    | _ :: tail => some tail

/-- Method `parseContainerLabels` of `sync.go`; `none` is a panic. -/
def parseContainerLabels (container : Container) : Option (List Route) :=
  let labels := container.Labels
  if index labels (bytes "goma.enable") ≠ bytes "true" then some []
  else
    match firstNameTail container.Names with
    | none => none
    | some containerName =>
      let routeNames := extractRouteNames labels
      if routeNames.length = 0 then some [parseSingleContainerRoute labels containerName]
      else
        some (routeNames.foldl
          (fun routes routeName =>
            routes ++ [parseNamedContainerRoute labels routeName containerName])
          [])

/-- The loop of `parseServiceLabels` over the route names: a panic in one
iteration ends the call. -/
def namedServiceRoutes (service : Service) (labels : LabelMap) (serviceName : GoString)
    (routeNames : List GoString) (routes : List Route) : Option (List Route) :=
  match routeNames with
  | [] => some routes
  | routeName :: rest =>
    match parseNamedServiceRoute service labels routeName serviceName with
    | none => none
    | some route => namedServiceRoutes service labels serviceName rest (routes ++ [route])

/-- Method `parseServiceLabels` of `sync.go`; `none` is a panic. -/
def parseServiceLabels (service : Service) : Option (List Route) :=
  let labels := service.Labels
  if index labels (bytes "goma.enable") ≠ bytes "true" then some []
  else
    let serviceName := service.Name
    let routeNames := extractRouteNames labels
    if routeNames.length = 0 then
      match parseSingleServiceRoute service labels serviceName with
      | none => none
      | some route => some [route]
    else namedServiceRoutes service labels serviceName routeNames []

/-! ## Vocabulary of the statements -/

/-- Two label maps differ at most in the entry for `key`: one is obtained from
the other by adding a label `key`, removing it, or giving it another value. -/
abbrev AgreeOff (key : GoString) (a b : LabelMap) : Prop :=
  a.filter (fun kv => kv.1 ≠ key) = b.filter (fun kv => kv.1 ≠ key)

/-- The port a service falls back to when its port label is unset: the decimal
rendering of the first declared endpoint port, `80` when none is declared. -/
def declaredPort (ports : List Nat) : GoString :=
  match ports with
  | targetPort :: _ => formatDecimal targetPort
  | [] => bytes "80"

/-- The byte `,`. -/
def comma : Byte := 0x2c

/-- List parsing as the specification words it: split the value at every
comma, trim leading and trailing white space from each piece, and drop the
pieces that are empty after trimming. -/
def parseListSpec (value : GoString) : List GoString :=
  ((stringsSplit value comma).map trimSpace).filter (fun piece => piece ≠ [])

/-- Integer-list parsing as the specification words it: split the value at
commas, trim each piece, and keep the value of the pieces that parse as an
integer. -/
def parseIntListSpec (value : GoString) : List Int :=
  ((stringsSplit value comma).map trimSpace).filterMap strconvAtoi

/-! ## `sync.go`: one reconciliation pass -/

/-- Struct `GomaConfig` of `types.go`. -/
structure GomaConfig where
  Routes : List Route
  deriving DecidableEq, Repr

/-- A Go `error` value: its message. -/
abbrev GoError := GoString

deriving instance DecidableEq for Except

/-- The field of `config.Config` read by `syncConfiguration`. -/
structure Config where
  EnableSwarm : Bool
  deriving DecidableEq, Repr

/-- Struct `Provider` of `provider.go`: the fields read or written by
`syncConfiguration`. -/
structure Provider where
  config : Config
  lastHash : GoString
  isSwarmMode : Bool
  deriving DecidableEq, Repr

/-- What the collaborators answer during one pass: the two listing calls of the
Docker client, and the error of `writeConfiguration` (its calls to the
operating system), `none` being nil. -/
structure Runtime where
  ContainerList : Except GoError (List Container)
  ServiceList : Except GoError (List Service)
  writeError : Option GoError

/-- Go `insertionSortCmpFunc` of package `sort` with the comparison of
`syncConfiguration`: an element moves left while its name is strictly less than
the name of its neighbour, so routes of equal name keep their order. -/
def insertionSortByName (routes : List Route) : List Route :=
  routes.insertionSort (fun a b => a.Name ≤ b.Name)

/-- Go `sort.Slice(routes, func(i, j) bool { return routes[i].Name < routes[j].Name })`.
A slice of at most 12 elements is sorted by insertion.  A longer slice is
sorted by the pattern-defeating quicksort of the Go library, which is not part
of the repository: it is the parameter `pdqsort`, of which the documentation
of `sort.Slice` promises `SortsByName` and no stability. -/
def sortSlice (pdqsort : List Route → List Route) (routes : List Route) : List Route :=
  if routes.length ≤ 12 then insertionSortByName routes else pdqsort routes

/-- What the documentation of Go `sort.Slice` promises of the sort: the result
is a rearrangement of the slice in which no route has a name less than the
name of a route before it. -/
def SortsByName (pdqsort : List Route → List Route) : Prop :=
  ∀ routes, (pdqsort routes).Perm routes ∧
    (pdqsort routes).Sorted (fun a b => a.Name ≤ b.Name)

/-- The loop of `getContainerRoutes` over the listed containers; `none` is a
panic in `parseContainerLabels`. -/
def containerRoutesLoop (containers : List Container) (routes : List Route) :
    Option (List Route) :=
  match containers with
  | [] => some routes
  | container :: rest =>
    match parseContainerLabels container with
    | none => none
    | some containerRoutes => containerRoutesLoop rest (routes ++ containerRoutes)

/-- Method `getContainerRoutes` of `sync.go`. -/
def getContainerRoutes (rt : Runtime) : Option (Except GoError (List Route)) :=
  match rt.ContainerList with
  | .error err => some (.error (bytes "failed to list containers: " ++ err))
  | .ok containers =>
    match containerRoutesLoop containers [] with
    | none => none
    | some routes => some (.ok routes)

/-- The loop of `getSwarmRoutes` over the listed services; `none` is a panic in
`parseServiceLabels`. -/
def serviceRoutesLoop (services : List Service) (routes : List Route) : Option (List Route) :=
  match services with
  | [] => some routes
  | service :: rest =>
    match parseServiceLabels service with
    | none => none
    | some serviceRoutes => serviceRoutesLoop rest (routes ++ serviceRoutes)

/-- Method `getSwarmRoutes` of `sync.go`. -/
def getSwarmRoutes (rt : Runtime) : Option (Except GoError (List Route)) :=
  match rt.ServiceList with
  | .error err => some (.error (bytes "failed to list services: " ++ err))
  | .ok services =>
    match serviceRoutesLoop services [] with
    | none => none
    | some routes => some (.ok routes)

/-- One digit of Go `hex.EncodeToString`. -/
def hexDigit (n : Nat) : Byte :=
  if n < 10 then Fin.ofNat (0x30 + n) else Fin.ofNat (0x61 + (n - 10))

/-- Go `hex.EncodeToString`. -/
def hexEncodeToString (src : List Byte) : GoString :=
  src.flatMap (fun b => [hexDigit (b.val / 16), hexDigit (b.val % 16)])

/-- Method `calculateHash` of `sync.go`.  `sum256` stands for
`sha256.Sum256` of `json.Marshal(config)`, a function of the configuration
that returns 32 bytes. -/
def calculateHash (sum256 : GomaConfig → List Byte) (config : GomaConfig) : GoString :=
  hexEncodeToString (sum256 config)

/-- Method `writeConfiguration` of `sync.go`: its error, decided by the
operating system. -/
def writeConfiguration (rt : Runtime) (_config : GomaConfig) : Option GoError :=
  rt.writeError

/-- What one call of `syncConfiguration` does: the error it returns (`none` is
nil), the provider afterwards, and the configurations it handed to
`writeConfiguration`. -/
structure Pass where
  err : Option GoError
  provider : Provider
  writes : List GomaConfig
  deriving DecidableEq, Repr

/-- The branch of `syncConfiguration` on the active source: the routes of the
swarm services when swarm support is enabled and detected, else those of the
containers. -/
def sourceRoutes (p : Provider) (rt : Runtime) : Option (Except GoError (List Route)) :=
  if p.config.EnableSwarm && p.isSwarmMode then getSwarmRoutes rt else getContainerRoutes rt

/-- Lines 55 to 81 of `syncConfiguration`: the routes of the active source,
sorted by name, in the envelope; an error of the listing call is returned, and
`none` is a panic. -/
def assembleConfiguration (pdqsort : List Route → List Route) (p : Provider) (rt : Runtime) :
    Option (Except GoError GomaConfig) :=
  match sourceRoutes p rt with
  | none => none
  | some (.error err) => some (.error err)
  | some (.ok sourceRoutes) =>
    let routes := [] ++ sourceRoutes
    some (.ok { Routes := sortSlice pdqsort routes })

/-- Method `syncConfiguration` of `sync.go`; `none` is a panic. -/
def syncConfiguration (pdqsort : List Route → List Route) (sum256 : GomaConfig → List Byte)
    (p : Provider) (rt : Runtime) : Option Pass :=
  match assembleConfiguration pdqsort p rt with
  | none => none
  | some (.error err) => some { err := some err, provider := p, writes := [] }
  | some (.ok config) =>
    let currentHash := calculateHash sum256 config
    if currentHash = p.lastHash then some { err := none, provider := p, writes := [] }
    else
      match writeConfiguration rt config with
      | some err => some { err := some err, provider := p, writes := [config] }
      | none =>
        some { err := none, provider := { p with lastHash := currentHash }, writes := [config] }

/-! ## Vocabulary of the statements, continued -/

/-- The value of a label that is set (present and non-empty), else the
default. -/
def labelOr (value : Option GoString) (defaultValue : GoString) : GoString :=
  match value with
  | some v => if v = [] then defaultValue else v
  | none => defaultValue

/-- The health-check block as the specification words it, from the values of
the labels `health_check.path`, `.interval`, `.timeout` and
`.healthy_statuses`: the zero value unless the path is set. -/
def healthCheckSpec (path interval timeout statuses : Option GoString) : RouteHealthCheck :=
  if labelOr path [] = [] then {}
  else
    { Path := labelOr path []
      Interval := labelOr interval (bytes "30s")
      Timeout := labelOr timeout (bytes "5s")
      HealthyStatuses := if labelOr statuses [] = [] then [] else parseIntList (labelOr statuses []) }

/-- The strings that Go `strconv.ParseBool` reads as true. -/
def trueWords : List GoString :=
  [bytes "1", bytes "t", bytes "T", bytes "TRUE", bytes "true", bytes "True"]

/-- The strings that Go `strconv.ParseBool` reads as false. -/
def falseWords : List GoString :=
  [bytes "0", bytes "f", bytes "F", bytes "FALSE", bytes "false", bytes "False"]

/-- A boolean field as the specification words it: the parsed value of the
label when it is one of the twelve words, the default when the label is absent,
empty or anything else. -/
def boolLabelSpec (value : Option GoString) (defaultValue : Bool) : Bool :=
  match value with
  | none => defaultValue
  | some v =>
    if v ∈ trueWords then true else if v ∈ falseWords then false else defaultValue

/-- The priority as the specification words it: the integer the label denotes
when it parses, `0` when the label is absent, empty or does not parse. -/
def prioritySpec (value : Option GoString) : Int :=
  match value with
  | none => 0
  | some v =>
    match strconvAtoi v with
    | some n => n
    | none => 0

/-- The label map with the key `goma.` followed by `k` for every entry `k` of
`m`, with the same value. -/
def withGomaNamespace (m : LabelMap) : LabelMap :=
  m.map (fun kv => (bytes "goma." ++ kv.1, kv.2))

/-- Two containers are the same unit listed with another iteration order of
its label map. -/
def SameContainer (a b : Container) : Prop :=
  a.Names = b.Names ∧ a.Labels.Perm b.Labels

/-- Two services are the same unit listed with another iteration order of its
label map. -/
def SameService (a b : Service) : Prop :=
  a.Name = b.Name ∧ a.EndpointSpec = b.EndpointSpec ∧ a.Labels.Perm b.Labels

/-- Two answers of a listing call describe the same discovered state: the same
error, or the same units up to the order of the listing and the iteration
order of each label map. -/
def SameListing {α : Type} (same : α → α → Prop) (a b : Except GoError (List α)) : Prop :=
  match a, b with
  | .ok xs, .ok ys => ∃ mid, xs.Perm mid ∧ List.Forall₂ same mid ys
  | .error e, .error e' => e = e'
  | _, _ => False

/-- Every label map of a listing has pairwise distinct keys. -/
def NodupListing {α : Type} (labelsOf : α → LabelMap) (a : Except GoError (List α)) : Prop :=
  match a with
  | .ok xs => ∀ x ∈ xs, NodupKeys (labelsOf x)
  | .error _ => True

/-- The shape shared by the loops of `getContainerRoutes` and
`getSwarmRoutes`: the routes of each unit appended in listing order, unless one
unit panics. -/
def collectRoutes {α : Type} (parse : α → Option (List Route)) (units : List α)
    (routes : List Route) : Option (List Route) :=
  match units with
  | [] => some routes
  | unit :: rest =>
    match parse unit with
    | none => none
    | some unitRoutes => collectRoutes parse rest (routes ++ unitRoutes)

/-! ## Maps: lookups -/

theorem bytes_true_ne_nil : bytes "true" ≠ [] := by decide

theorem index_eq_of_lookup (m : LabelMap) (key v : GoString) (h : lookup m key = some v) :
    index m key = v := by
  simp [index, h]

theorem index_ne_of_lookup_ne (m : LabelMap) (key v : GoString) (hv : v ≠ [])
    (h : lookup m key ≠ some v) : index m key ≠ v := by
  unfold index
  cases hl : lookup m key with
  | none =>
    intro hx
    exact hv hx.symm
  | some x =>
    simp only [Option.getD_some]
    intro hx
    exact h (by rw [hl, hx])

/-! ## The gate -/

/-- C1 (gate).  A container, and a service, whose label map does not map
`goma.enable` to exactly `true` (the key is absent, or has any other value)
yields no routes, whatever other labels it carries; the container's names and
the service's endpoint specification are not even inspected. -/
theorem gate_closed_yields_no_routes (container : Container) (service : Service)
    (hc : lookup container.Labels (bytes "goma.enable") ≠ some (bytes "true"))
    (hs : lookup service.Labels (bytes "goma.enable") ≠ some (bytes "true")) :
    parseContainerLabels container = some [] ∧ parseServiceLabels service = some [] := by
  constructor
  · unfold parseContainerLabels
    simp [index_ne_of_lookup_ne _ _ _ bytes_true_ne_nil hc]
  · unfold parseServiceLabels
    simp [index_ne_of_lookup_ne _ _ _ bytes_true_ne_nil hs]

/-- Witness for C1: the value `True` (wrong case) with single-mode and
named-mode labels present, on a container without names and a service without
endpoint specification. -/
theorem gate_closed_yields_no_routes_witness :
    parseContainerLabels
        { Names := [],
          Labels := [(bytes "goma.enable", bytes "True"), (bytes "goma.path", bytes "/api"),
            (bytes "goma.routes.web.path", bytes "/")] } = some [] ∧
    parseServiceLabels
        { Name := bytes "orders",
          Labels := [(bytes "goma.port", bytes "8080"), (bytes "goma.routes.web.port", bytes "1")],
          EndpointSpec := none } = some [] :=
  gate_closed_yields_no_routes _ _ (by decide) (by decide)
/-! ## The named-route pattern -/

theorem hasPrefix_iff (s pfx : GoString) : hasPrefix s pfx = true ↔ ∃ t, s = pfx ++ t := by
  unfold hasPrefix
  rw [ List.isPrefixOf_iff_prefix]
  constructor
  · rintro ⟨t, rfl⟩
    exact ⟨t, rfl⟩
  · rintro ⟨t, rfl⟩
    exact ⟨t, rfl⟩

theorem hasPrefix_append (pfx t : GoString) : hasPrefix (pfx ++ t) pfx = true :=
  (hasPrefix_iff _ _).2 ⟨t, rfl⟩

theorem trimPrefix_append (pfx t : GoString) : trimPrefix (pfx ++ t) pfx = t := by
  simp [trimPrefix, hasPrefix_append]

theorem dropWhile_head_false {α : Type} (p : α → Bool) (l : List α) (d : α) (t : List α)
    (h : l.dropWhile p = d :: t) : p d = false := by
  induction l with
  | nil => simp at h
  | cons a l ih =>
    rw [List.dropWhile_cons] at h
    split at h
    · exact ih h
    · rename_i hpa
      have := (List.cons.inj h).1
      subst this
      simpa using hpa

/-- The regular expression matches exactly the keys
`goma.routes.<routeName>.<field>` with a non-empty dot-free route name and a
non-empty field without line feed, and reports these two groups. -/
theorem namedRoutePattern_eq_some_iff (key : GoString) (ms : List GoString) :
    namedRoutePattern key = some ms ↔
      ∃ r f, ms = [key, r, f] ∧ key = bytes "goma.routes." ++ r ++ bytes "." ++ f ∧
        r ≠ [] ∧ dot ∉ r ∧ f ≠ [] ∧ newline ∉ f := by
  have hdot : bytes "." = [dot] := by decide
  constructor
  · intro h
    unfold namedRoutePattern at h
    split at h
    · rename_i hp
      obtain ⟨rest, rfl⟩ := (hasPrefix_iff _ _).1 hp
      simp only [List.drop_left] at h
      split at h
      · exact absurd h (by simp)
      · rename_i d field hd
        split at h
        · rename_i hc
          obtain ⟨h1, h2, h3⟩ := hc
          have hms := (Option.some.inj h).symm
          refine ⟨rest.takeWhile (fun b => b ≠ dot), field, hms, ?_, h1, ?_, h2, h3⟩
          · have hd' : d = dot := by
              have := dropWhile_head_false _ _ _ _ hd
              simpa using this
            have hsplit := List.takeWhile_append_dropWhile (fun b => decide (b ≠ dot)) rest
            rw [hd, hd'] at hsplit
            rw [hdot, List.append_assoc, List.append_assoc]
            congr 1
            simpa using hsplit.symm
          · intro hmem
            have := List.mem_takeWhile_imp hmem
            simp at this
        · exact absurd h (by simp)
    · exact absurd h (by simp)
  · rintro ⟨r, f, rfl, rfl, h1, h2, h3, h4⟩
    unfold namedRoutePattern
    have hp : hasPrefix (bytes "goma.routes." ++ r ++ bytes "." ++ f) (bytes "goma.routes.") = true := by
      rw [List.append_assoc, List.append_assoc]
      exact hasPrefix_append _ _
    rw [if_pos hp]
    have hdrop : List.drop (bytes "goma.routes.").length
        (bytes "goma.routes." ++ r ++ bytes "." ++ f) = r ++ dot :: f := by
      rw [List.append_assoc, List.append_assoc, List.drop_left, hdot]
      rfl
    simp only [hdrop]
    have hall : ∀ b ∈ r, decide (b ≠ dot) = true := by
      intro b hb
      simp only [decide_eq_true_eq]
      rintro rfl
      exact h2 hb
    have htake : (r ++ dot :: f).takeWhile (fun b => decide (b ≠ dot)) = r := by
      rw [List.takeWhile_append_of_pos hall]
      simp
    have hdropw : (r ++ dot :: f).dropWhile (fun b => decide (b ≠ dot)) = dot :: f := by
      rw [List.dropWhile_append_of_pos hall]
      simp
    rw [hdropw]
    simp only [htake]
    rw [if_pos ⟨h1, h3, h4⟩]
/-! ## Route names -/

theorem foldl_append_map {α β : Type} (g : α → β) (l : List α) (init : List β) :
    l.foldl (fun acc x => acc ++ [g x]) init = init ++ l.map g := by
  induction l generalizing init with
  | nil => simp
  | cons a l ih => simp [ih]

theorem setAdd_nodup (routeMap : List GoString) (r : GoString) (h : routeMap.Nodup) :
    (setAdd routeMap r).Nodup := by
  unfold setAdd
  split
  · exact h
  · rename_i hr
    rw [List.nodup_append]
    refine ⟨h, List.nodup_singleton r, ?_⟩
    intro a ha hb
    rw [List.mem_singleton] at hb
    exact hr (hb ▸ ha)

theorem mem_setAdd (routeMap : List GoString) (r x : GoString) :
    x ∈ setAdd routeMap r ↔ x ∈ routeMap ∨ x = r := by
  unfold setAdd
  split
  · rename_i hr
    constructor
    · exact Or.inl
    · rintro (h | rfl)
      · exact h
      · exact hr
  · simp

/-- The set of route names collected by the first loop of `extractRouteNames`. -/
theorem routeMap_spec (labels : LabelMap) (acc : List GoString) (hacc : acc.Nodup) :
    (labels.foldl
      (fun routeMap kv =>
        match namedRoutePattern kv.1 with
        | some ms => setAdd routeMap (ms.getD 1 [])
        | none => routeMap) acc).Nodup ∧
    ∀ r, r ∈ labels.foldl
      (fun routeMap kv =>
        match namedRoutePattern kv.1 with
        | some ms => setAdd routeMap (ms.getD 1 [])
        | none => routeMap) acc ↔
      r ∈ acc ∨ ∃ kv ∈ labels, ∃ ms, namedRoutePattern kv.1 = some ms ∧ ms.getD 1 [] = r := by
  induction labels generalizing acc with
  | nil => simp [hacc]
  | cons kv rest ih =>
    simp only [List.foldl_cons]
    cases hm : namedRoutePattern kv.1 with
    | none =>
      obtain ⟨h1, h2⟩ := ih acc hacc
      refine ⟨h1, fun r => ?_⟩
      rw [h2 r]
      simp [hm]
    | some ms =>
      obtain ⟨h1, h2⟩ := ih (setAdd acc (ms.getD 1 [])) (setAdd_nodup _ _ hacc)
      refine ⟨h1, fun r => ?_⟩
      rw [h2 r, mem_setAdd]
      simp only [List.mem_cons, exists_eq_or_imp, hm, Option.some.injEq, exists_eq_left']
      constructor
      · rintro ((h | h) | h)
        · exact Or.inl h
        · exact Or.inr (Or.inl h.symm)
        · exact Or.inr (Or.inr h)
      · rintro (h | h | h)
        · exact Or.inl (Or.inl h)
        · exact Or.inl (Or.inr h.symm)
        · exact Or.inr h

theorem foldl_append_singleton (l init : List GoString) :
    l.foldl (fun routes route => routes ++ [route]) init = init ++ l := by
  induction l generalizing init with
  | nil => simp
  | cons a l ih => simp [ih]

theorem sortStrings_perm (l : List GoString) : (sortStrings l).Perm l :=
  List.perm_insertionSort _ l

theorem sortStrings_sorted_lt (l : List GoString) (h : l.Nodup) :
    (sortStrings l).Sorted (fun a b => a < b) :=
  (List.sorted_insertionSort (fun a b : GoString => a ≤ b) l).lt_of_le
    ((sortStrings_perm l).nodup_iff.2 h)

theorem extractRouteNames_sorted (labels : LabelMap) :
    (extractRouteNames labels).Sorted (fun a b => a < b) := by
  unfold extractRouteNames
  simp only []
  apply sortStrings_sorted_lt
  rw [foldl_append_singleton, List.nil_append]
  exact (routeMap_spec labels [] List.nodup_nil).1

theorem mem_extractRouteNames (labels : LabelMap) (r : GoString) :
    r ∈ extractRouteNames labels ↔
      ∃ kv ∈ labels, ∃ f, kv.1 = bytes "goma.routes." ++ r ++ bytes "." ++ f ∧
        r ≠ [] ∧ dot ∉ r ∧ f ≠ [] ∧ newline ∉ f := by
  unfold extractRouteNames
  simp only []
  rw [(sortStrings_perm _).mem_iff]
  rw [foldl_append_singleton, List.nil_append, (routeMap_spec labels [] List.nodup_nil).2 r]
  simp only [List.not_mem_nil, false_or]
  constructor
  · rintro ⟨kv, hkv, ms, hms, hr⟩
    obtain ⟨r', f, rfl, hk, h1, h2, h3, h4⟩ := (namedRoutePattern_eq_some_iff _ _).1 hms
    simp only [List.getD_cons_succ, List.getD_cons_zero] at hr
    subst hr
    exact ⟨kv, hkv, f, hk, h1, h2, h3, h4⟩
  · rintro ⟨kv, hkv, f, hk, h1, h2, h3, h4⟩
    exact ⟨kv, hkv, [kv.1, r, f],
      (namedRoutePattern_eq_some_iff _ _).2 ⟨r, f, rfl, hk, h1, h2, h3, h4⟩, by simp⟩
theorem mem_extractRouteNames_pattern (labels : LabelMap) (r : GoString) :
    r ∈ extractRouteNames labels ↔
      ∃ kv ∈ labels, ∃ ms, namedRoutePattern kv.1 = some ms ∧ ms.getD 1 [] = r := by
  unfold extractRouteNames
  simp only []
  rw [(sortStrings_perm _).mem_iff]
  rw [foldl_append_singleton, List.nil_append, (routeMap_spec labels [] List.nodup_nil).2 r]
  simp only [List.not_mem_nil, false_or]

theorem extractRouteNames_eq_nil (labels : LabelMap)
    (h : ∀ kv ∈ labels, namedRoutePattern kv.1 = none) : extractRouteNames labels = [] := by
  rw [List.eq_nil_iff_forall_not_mem]
  intro r hr
  obtain ⟨kv, hkv, ms, hms, -⟩ := (mem_extractRouteNames_pattern labels r).1 hr
  rw [h kv hkv] at hms
  exact absurd hms (by simp)

/-! ## Unfolding `parseContainerLabels` -/

theorem parseContainerLabels_named (container : Container) (n : GoString)
    (hgate : lookup container.Labels (bytes "goma.enable") = some (bytes "true"))
    (hname : firstNameTail container.Names = some n)
    (hnamed : extractRouteNames container.Labels ≠ []) :
    parseContainerLabels container =
      some ((extractRouteNames container.Labels).map
        (fun r => parseNamedContainerRoute container.Labels r n)) := by
  unfold parseContainerLabels
  simp only [index_eq_of_lookup _ _ _ hgate, ne_eq, not_true_eq_false, if_false, hname,
    List.length_eq_zero, if_neg hnamed]
  rw [foldl_append_map]
  rfl

theorem parseContainerLabels_single (container : Container) (n : GoString)
    (hgate : lookup container.Labels (bytes "goma.enable") = some (bytes "true"))
    (hname : firstNameTail container.Names = some n)
    (hsingle : extractRouteNames container.Labels = []) :
    parseContainerLabels container = some [parseSingleContainerRoute container.Labels n] := by
  unfold parseContainerLabels
  simp only [index_eq_of_lookup _ _ _ hgate, ne_eq, not_true_eq_false, if_false, hname,
    List.length_eq_zero, if_pos hsingle]

/-! ## Fields that the field parsers leave alone -/

theorem parseRouteLabels_fixed (route : Route) (labels : LabelMap) :
    (parseRouteLabels route labels).Name = route.Name ∧
    (parseRouteLabels route labels).Path = route.Path ∧
    (parseRouteLabels route labels).Target = route.Target ∧
    (parseRouteLabels route labels).Enabled = route.Enabled :=
  ⟨rfl, rfl, rfl, rfl⟩

theorem parseRouteFields_fixed (route : Route) (labels : LabelMap) :
    (parseRouteFields route labels).Name = route.Name ∧
    (parseRouteFields route labels).Path = route.Path ∧
    (parseRouteFields route labels).Target = route.Target ∧
    (parseRouteFields route labels).Enabled = route.Enabled :=
  ⟨rfl, rfl, rfl, rfl⟩

theorem getLabel_eq (labels : LabelMap) (key d : GoString) :
    getLabel labels key d =
      match lookup labels key with
      | some v => if v = [] then d else v
      | none => d := by
  unfold getLabel
  cases lookup labels key with
  | none => rfl
  | some v => by_cases hv : v = [] <;> simp [hv]

theorem getRouteLabel_eq (labels : LabelMap) (key d : GoString) :
    getRouteLabel labels key d =
      match lookup labels key with
      | some v => if v = [] then d else v
      | none => d := by
  unfold getRouteLabel
  cases lookup labels key with
  | none => rfl
  | some v => by_cases hv : v = [] <;> simp [hv]

theorem coerceScheme_getLabel (labels : LabelMap) :
    coerceScheme (getLabel labels (bytes "goma.scheme") (bytes "http")) =
      if lookup labels (bytes "goma.scheme") = some (bytes "https") then bytes "https"
      else bytes "http" := by
  rw [getLabel_eq]
  have h1 : bytes "https" ≠ [] := by decide
  have h2 : bytes "http" ≠ bytes "https" := by decide
  cases hl : lookup labels (bytes "goma.scheme") with
  | none => simp [coerceScheme, h2]
  | some v =>
    by_cases hv : v = bytes "https"
    · subst hv
      simp [coerceScheme, h1]
    · by_cases hv0 : v = []
      · simp [coerceScheme, hv0, h2, h1]
      · by_cases hv1 : v = bytes "http"
        · simp [coerceScheme, hv0, hv1, h2]
        · simp [coerceScheme, hv0, hv1, hv]
/-! ## Maps: assignment and the labels of one named route -/

theorem lookup_assign (m : LabelMap) (a v f : GoString) :
    lookup (assign m a v) f = if a = f then some v else lookup m f := by
  induction m with
  | nil => simp [assign, lookup]
  | cons kv rest ih =>
    obtain ⟨k, w⟩ := kv
    unfold assign
    by_cases hk : k = a
    · subst hk
      by_cases hf : k = f <;> simp [lookup, hf]
    · rw [if_neg hk]
      by_cases hkf : k = f
      · subst hkf
        have : ¬ a = k := fun h => hk h.symm
        simp [lookup, this]
      · simp [lookup, hkf, ih]

theorem lookup_append_singleton (m : LabelMap) (k v key : GoString) :
    lookup (m ++ [(k, v)]) key =
      match lookup m key with
      | some x => some x
      | none => if k = key then some v else none := by
  induction m with
  | nil => simp [lookup]
  | cons kv rest ih =>
    obtain ⟨k', w⟩ := kv
    by_cases hk : k' = key
    · simp [lookup, hk]
    · simp [lookup, hk, ih]

theorem lookup_eq_none (m : LabelMap) (key : GoString) (h : key ∉ m.map Prod.fst) :
    lookup m key = none := by
  induction m with
  | nil => rfl
  | cons kv rest ih =>
    obtain ⟨k, w⟩ := kv
    simp only [List.map_cons, List.mem_cons, not_or] at h
    have hk : ¬ k = key := fun e => h.1 e.symm
    simp [lookup, hk, ih h.2]

/-- In the label map built for one named route, a bare field name has the
value that the unit gives to the key `pfx ++ field`. -/
theorem lookup_extractRouteLabels (labels : LabelMap) (pfx field : GoString)
    (hnd : NodupKeys labels) :
    lookup (extractRouteLabels labels pfx) field = lookup labels (pfx ++ field) := by
  induction labels using List.reverseRecOn with
  | nil => rfl
  | append_singleton rest kv ih =>
    obtain ⟨k, v⟩ := kv
    have hnd' : NodupKeys rest ∧ k ∉ rest.map Prod.fst := by
      unfold NodupKeys at hnd ⊢
      rw [List.map_append, List.nodup_append] at hnd
      refine ⟨hnd.1, fun hk => hnd.2.2 hk (by simp)⟩
    have hstep : extractRouteLabels (rest ++ [(k, v)]) pfx =
        if hasPrefix k pfx then assign (extractRouteLabels rest pfx) (trimPrefix k pfx) v
        else extractRouteLabels rest pfx := by
      unfold extractRouteLabels
      rw [List.foldl_append]
      rfl
    rw [hstep, lookup_append_singleton, ← ih hnd'.1]
    by_cases hp : hasPrefix k pfx = true
    · obtain ⟨t, rfl⟩ := (hasPrefix_iff _ _).1 hp
      rw [if_pos hp, lookup_assign, trimPrefix_append]
      by_cases ht : t = field
      · subst ht
        rw [if_pos rfl, ih hnd'.1, lookup_eq_none _ _ hnd'.2]
        simp
      · have hne : ¬ pfx ++ t = pfx ++ field := fun e => ht (List.append_cancel_left e)
        rw [if_neg ht, if_neg hne]
        cases lookup (extractRouteLabels rest pfx) field <;> rfl
    · have hne : ¬ k = pfx ++ field := by
        rintro rfl
        exact hp (hasPrefix_append _ _)
      rw [if_neg hp, if_neg hne]
      cases lookup (extractRouteLabels rest pfx) field <;> rfl
/-! ## Labels that a loop does not read -/

theorem foldl_agreeOff {β : Type} (f : β → GoString × GoString → β) (key : GoString)
    (hf : ∀ acc v, f acc (key, v) = acc) (a b : LabelMap) (h : AgreeOff key a b) (init : β) :
    a.foldl f init = b.foldl f init := by
  have hfilter : ∀ (l : LabelMap) (init : β),
      l.foldl f init = (l.filter (fun kv => kv.1 ≠ key)).foldl f init := by
    intro l
    induction l with
    | nil => intro init; rfl
    | cons kv rest ih =>
      intro init
      obtain ⟨k, v⟩ := kv
      by_cases hk : k = key
      · subst hk
        simp [List.filter_cons, hf, ih]
      · simp [List.filter_cons, hk, ih]
  rw [hfilter a, hfilter b, h]

theorem lookup_agreeOff (key k : GoString) (hk : k ≠ key) (a b : LabelMap)
    (h : AgreeOff key a b) : lookup a k = lookup b k := by
  have hfilter : ∀ l : LabelMap, lookup l k = lookup (l.filter (fun kv => kv.1 ≠ key)) k := by
    intro l
    induction l with
    | nil => rfl
    | cons kv rest ih =>
      obtain ⟨k', v⟩ := kv
      by_cases hk' : k' = key
      · subst hk'
        have : ¬ k' = k := fun e => hk e.symm
        simp [List.filter_cons, lookup, this, ih]
      · by_cases hkk : k' = k
        · subst hkk
          simp [List.filter_cons, lookup, hk']
        · simp [List.filter_cons, lookup, hk', hkk, ih]
  rw [hfilter a, hfilter b, h]

theorem index_agreeOff (key k : GoString) (hk : k ≠ key) (a b : LabelMap)
    (h : AgreeOff key a b) : index a k = index b k := by
  unfold index
  rw [lookup_agreeOff key k hk a b h]

theorem getLabel_agreeOff (key k d : GoString) (hk : k ≠ key) (a b : LabelMap)
    (h : AgreeOff key a b) : getLabel a k d = getLabel b k d := by
  unfold getLabel
  rw [lookup_agreeOff key k hk a b h]

theorem hasPrefix_of_hasPrefix_append (s p q : GoString) (h : hasPrefix s (p ++ q) = true) :
    hasPrefix s p = true := by
  obtain ⟨t, rfl⟩ := (hasPrefix_iff _ _).1 h
  rw [List.append_assoc]
  exact hasPrefix_append _ _

theorem namedRoutePattern_eq_none_of_not_hasPrefix (key : GoString)
    (h : hasPrefix key (bytes "goma.routes.") = false) : namedRoutePattern key = none := by
  unfold namedRoutePattern
  simp [h]

theorem extractRouteNames_agreeOff (key : GoString)
    (hkey : hasPrefix key (bytes "goma.routes.") = false) (a b : LabelMap)
    (h : AgreeOff key a b) : extractRouteNames a = extractRouteNames b := by
  unfold extractRouteNames
  simp only []
  rw [foldl_agreeOff _ key _ a b h]
  intro acc v
  simp [namedRoutePattern_eq_none_of_not_hasPrefix key hkey]

theorem extractRouteLabels_agreeOff (key r : GoString)
    (hkey : hasPrefix key (bytes "goma.routes.") = false) (a b : LabelMap)
    (h : AgreeOff key a b) :
    extractRouteLabels a (bytes "goma.routes." ++ r ++ bytes ".") =
      extractRouteLabels b (bytes "goma.routes." ++ r ++ bytes ".") := by
  unfold extractRouteLabels
  apply foldl_agreeOff _ key _ a b h
  intro acc v
  have : ¬ hasPrefix key (bytes "goma.routes." ++ r ++ bytes ".") = true := by
    intro hp
    rw [List.append_assoc] at hp
    rw [hasPrefix_of_hasPrefix_append _ _ _ hp] at hkey
    exact absurd hkey (by simp)
  simp only [this, if_false, Bool.false_eq_true]

theorem parseNamedContainerRoute_agreeOff (key : GoString)
    (hkey : hasPrefix key (bytes "goma.routes.") = false) (hscheme : key ≠ bytes "goma.scheme")
    (a b : LabelMap) (h : AgreeOff key a b) (r n : GoString) :
    parseNamedContainerRoute a r n = parseNamedContainerRoute b r n := by
  unfold parseNamedContainerRoute
  simp only [extractRouteLabels_agreeOff key r hkey a b h,
    getLabel_agreeOff key _ _ (Ne.symm hscheme) a b h]

theorem parseNamedServiceRoute_agreeOff (key : GoString)
    (hkey : hasPrefix key (bytes "goma.routes.") = false) (hscheme : key ≠ bytes "goma.scheme")
    (a b : LabelMap) (h : AgreeOff key a b) (s s' : Service)
    (hs : s'.EndpointSpec = s.EndpointSpec) (r n : GoString) :
    parseNamedServiceRoute s a r n = parseNamedServiceRoute s' b r n := by
  unfold parseNamedServiceRoute servicePort
  simp only [extractRouteLabels_agreeOff key r hkey a b h,
    getLabel_agreeOff key _ _ (Ne.symm hscheme) a b h, hs]

theorem namedServiceRoutes_congr (s s' : Service) (a b : LabelMap) (n : GoString)
    (h : ∀ r, parseNamedServiceRoute s a r n = parseNamedServiceRoute s' b r n)
    (routeNames : List GoString) (routes : List Route) :
    namedServiceRoutes s a n routeNames routes = namedServiceRoutes s' b n routeNames routes := by
  induction routeNames generalizing routes with
  | nil => rfl
  | cons r rest ih =>
    unfold namedServiceRoutes
    rw [h r]
    cases parseNamedServiceRoute s' b r n with
    | none => rfl
    | some route => exact ih _

/-- C2 as amended (mode exclusivity).  In named mode the routes of a container
and of a service do not depend on the label `key`, for every key outside the
`goma.routes.` namespace other than the gate `goma.enable` and `goma.scheme`:
adding, removing or changing `goma.path`, `goma.name`, `goma.port`,
`goma.rewrite`, `goma.priority`, `goma.hosts`, ... leaves them unchanged.  The
label `goma.scheme` is excluded because named mode does read it. -/
theorem named_mode_ignores_single_mode_labels (key : GoString) (labels labels' : LabelMap)
    (names : List GoString) (serviceName : GoString) (endpointSpec : Option (List Nat))
    (hkey : hasPrefix key (bytes "goma.routes.") = false)
    (hscheme : key ≠ bytes "goma.scheme") (henable : key ≠ bytes "goma.enable")
    (hnamed : extractRouteNames labels ≠ [])
    (h : AgreeOff key labels labels') :
    parseContainerLabels { Names := names, Labels := labels' } =
      parseContainerLabels { Names := names, Labels := labels } ∧
    parseServiceLabels
        { Name := serviceName, Labels := labels', EndpointSpec := endpointSpec } =
      parseServiceLabels
        { Name := serviceName, Labels := labels, EndpointSpec := endpointSpec } := by
  have hnames := extractRouteNames_agreeOff key hkey labels labels' h
  have hnamed' : extractRouteNames labels' ≠ [] := hnames ▸ hnamed
  have hidx := index_agreeOff key _ (Ne.symm henable) labels labels' h
  constructor
  · unfold parseContainerLabels
    simp only [← hidx, ← hnames]
    split
    · rfl
    · split
      · rfl
      · rename_i n hn
        simp only [List.length_eq_zero, if_neg hnamed]
        congr 1
        rw [foldl_append_map, foldl_append_map]
        congr 1
        apply List.map_congr_left
        intro r _
        exact (parseNamedContainerRoute_agreeOff key hkey hscheme labels labels' h r n).symm
  · unfold parseServiceLabels
    simp only [← hidx, ← hnames, List.length_eq_zero, if_neg hnamed]
    split
    · rfl
    · exact (namedServiceRoutes_congr
        { Name := serviceName, Labels := labels, EndpointSpec := endpointSpec }
        { Name := serviceName, Labels := labels', EndpointSpec := endpointSpec }
        labels labels' serviceName
        (fun r => parseNamedServiceRoute_agreeOff key hkey hscheme labels labels' h _ _ rfl r _)
        _ _).symm
/-- Witness for C2 as amended: the single-mode label `goma.path` is added to
a container and to a service that have the named route `web`. -/
theorem named_mode_ignores_single_mode_labels_witness :
    parseContainerLabels
        { Names := [bytes "/app"],
          Labels := [(bytes "goma.enable", bytes "true"),
            (bytes "goma.routes.web.path", bytes "/"), (bytes "goma.path", bytes "/x")] } =
      parseContainerLabels
        { Names := [bytes "/app"],
          Labels := [(bytes "goma.enable", bytes "true"),
            (bytes "goma.routes.web.path", bytes "/")] } ∧
    parseServiceLabels
        { Name := bytes "app",
          Labels := [(bytes "goma.enable", bytes "true"),
            (bytes "goma.routes.web.path", bytes "/"), (bytes "goma.path", bytes "/x")],
          EndpointSpec := some [9000] } =
      parseServiceLabels
        { Name := bytes "app",
          Labels := [(bytes "goma.enable", bytes "true"),
            (bytes "goma.routes.web.path", bytes "/")],
          EndpointSpec := some [9000] } :=
  named_mode_ignores_single_mode_labels (bytes "goma.path") _ _ _ _ _
    (by decide) (by decide) (by decide) (by decide) (by decide)

/-- Counterexample to C2 as stated: a unit that passes the gate and has the
named route `web`; adding the single-mode label `goma.scheme=https` changes the
route it yields, from target `http://app:80` to `https://app:80`. -/
theorem named_mode_reads_goma_scheme :
    lookup [(bytes "goma.enable", bytes "true"), (bytes "goma.routes.web.path", bytes "/")]
        (bytes "goma.enable") = some (bytes "true") ∧
    extractRouteNames
        [(bytes "goma.enable", bytes "true"), (bytes "goma.routes.web.path", bytes "/")] =
      [bytes "web"] ∧
    AgreeOff (bytes "goma.scheme")
        [(bytes "goma.enable", bytes "true"), (bytes "goma.routes.web.path", bytes "/")]
        [(bytes "goma.enable", bytes "true"), (bytes "goma.routes.web.path", bytes "/"),
          (bytes "goma.scheme", bytes "https")] ∧
    (parseContainerLabels
        { Names := [bytes "/app"],
          Labels := [(bytes "goma.enable", bytes "true"),
            (bytes "goma.routes.web.path", bytes "/")] }).map (List.map Route.Target) =
      some [bytes "http://app:80"] ∧
    (parseContainerLabels
        { Names := [bytes "/app"],
          Labels := [(bytes "goma.enable", bytes "true"),
            (bytes "goma.routes.web.path", bytes "/"),
            (bytes "goma.scheme", bytes "https")] }).map (List.map Route.Target) =
      some [bytes "https://app:80"] := by
  decide

/-- C3 as amended (named-mode enumeration).  For every label map,
`extractRouteNames` is strictly ascending in the bytewise order and contains
exactly the route names `r` (non-empty, dot-free) for which some key is
`goma.routes.r.<field>` with a non-empty field that contains no line feed; and
a container that passes the gate, has a non-empty first name (its identity `n`
is that name without its first byte) and a non-empty list of route names
yields exactly one route per element of the list, in the same order. -/
theorem named_mode_enumeration (labels : LabelMap) (container : Container) (n : GoString)
    (hgate : lookup container.Labels (bytes "goma.enable") = some (bytes "true"))
    (hname : firstNameTail container.Names = some n)
    (hnamed : extractRouteNames container.Labels ≠ []) :
    (extractRouteNames labels).Sorted (fun a b => a < b) ∧
    (∀ r, r ∈ extractRouteNames labels ↔
      ∃ kv ∈ labels, ∃ f, kv.1 = bytes "goma.routes." ++ r ++ bytes "." ++ f ∧
        r ≠ [] ∧ dot ∉ r ∧ f ≠ [] ∧ newline ∉ f) ∧
    parseContainerLabels container =
      some ((extractRouteNames container.Labels).map
        (fun r => parseNamedContainerRoute container.Labels r n)) :=
  ⟨extractRouteNames_sorted labels, mem_extractRouteNames labels,
    parseContainerLabels_named container n hgate hname hnamed⟩

/-- Witness for C3 as amended: the unit of scenario 2, whose keys list `web`
before `api`, yields the routes for `api` and `web` in this order. -/
theorem named_mode_enumeration_witness :
    extractRouteNames
        [(bytes "goma.enable", bytes "true"), (bytes "goma.routes.web.path", bytes "/"),
          (bytes "goma.routes.api.path", bytes "/api"),
          (bytes "goma.routes.api.port", bytes "81")] = [bytes "api", bytes "web"] ∧
    parseContainerLabels
        { Names := [bytes "/app"],
          Labels := [(bytes "goma.enable", bytes "true"),
            (bytes "goma.routes.web.path", bytes "/"),
            (bytes "goma.routes.api.path", bytes "/api"),
            (bytes "goma.routes.api.port", bytes "81")] } =
      some ((extractRouteNames
          [(bytes "goma.enable", bytes "true"), (bytes "goma.routes.web.path", bytes "/"),
            (bytes "goma.routes.api.path", bytes "/api"),
            (bytes "goma.routes.api.port", bytes "81")]).map
        (fun r => parseNamedContainerRoute
          [(bytes "goma.enable", bytes "true"), (bytes "goma.routes.web.path", bytes "/"),
            (bytes "goma.routes.api.path", bytes "/api"),
            (bytes "goma.routes.api.port", bytes "81")] r (bytes "app"))) :=
  ⟨by decide,
    (named_mode_enumeration []
      { Names := [bytes "/app"],
        Labels := [(bytes "goma.enable", bytes "true"),
          (bytes "goma.routes.web.path", bytes "/"),
          (bytes "goma.routes.api.path", bytes "/api"),
          (bytes "goma.routes.api.port", bytes "81")] }
      (bytes "app") (by decide) (by decide) (by decide)).2.2⟩

/-- Counterexample to C3 as stated: the key `goma.routes.web.` followed by a
line feed has the form `goma.routes.web.<non-empty field>`, with `web`
non-empty and dot-free, yet `extractRouteNames` returns no route name: in the
regular expression `.` does not match a line feed. -/
theorem newline_field_not_enumerated :
    (∃ kv ∈ [(bytes "goma.enable", bytes "true"),
        (bytes "goma.routes.web." ++ [newline], bytes "x")],
      ∃ f, kv.1 = bytes "goma.routes." ++ bytes "web" ++ bytes "." ++ f ∧ f ≠ []) ∧
    bytes "web" ≠ [] ∧ dot ∉ bytes "web" ∧
    extractRouteNames [(bytes "goma.enable", bytes "true"),
      (bytes "goma.routes.web." ++ [newline], bytes "x")] = [] :=
  ⟨⟨(bytes "goma.routes.web." ++ [newline], bytes "x"), by decide, [newline], by decide,
      by decide⟩,
    by decide, by decide, by decide⟩
/-! ## Names, paths and targets -/

/-- C4 (named-mode name and path defaults).  The route resolved for route name
`r` of a unit with identity `c` has the value of `goma.routes.r.name` as Name
when that label exists and is non-empty, otherwise `c-r`; and the value of
`goma.routes.r.path` as Path when that label exists and is non-empty,
otherwise `/`. -/
theorem named_route_name_and_path (labels : LabelMap) (r c : GoString)
    (hnd : NodupKeys labels) :
    (parseNamedContainerRoute labels r c).Name =
      (match lookup labels (bytes "goma.routes." ++ r ++ bytes "." ++ bytes "name") with
        | some v => if v = [] then c ++ bytes "-" ++ r else v
        | none => c ++ bytes "-" ++ r) ∧
    (parseNamedContainerRoute labels r c).Path =
      (match lookup labels (bytes "goma.routes." ++ r ++ bytes "." ++ bytes "path") with
        | some v => if v = [] then bytes "/" else v
        | none => bytes "/") := by
  constructor
  · show getRouteLabel (extractRouteLabels labels (bytes "goma.routes." ++ r ++ bytes "."))
      (bytes "name") (c ++ bytes "-" ++ r) = _
    rw [getRouteLabel_eq, lookup_extractRouteLabels _ _ _ hnd]
  · show (match lookup (extractRouteLabels labels (bytes "goma.routes." ++ r ++ bytes "."))
        (bytes "path") with
      | some path => if path = [] then bytes "/" else path
      | none => bytes "/") = _
    rw [lookup_extractRouteLabels _ _ _ hnd]

/-- Witness for C4: scenario 2 of the specification.  Identity `app` with
`goma.routes.web.path=/` and `goma.routes.api.path=/api` gives the routes
`app-api` with Path `/api` and `app-web` with Path `/`, both with Target
`http://app:80`. -/
theorem named_route_name_and_path_witness :
    NodupKeys [(bytes "goma.enable", bytes "true"), (bytes "goma.routes.web.path", bytes "/"),
      (bytes "goma.routes.api.path", bytes "/api")] ∧
    (parseNamedContainerRoute
        [(bytes "goma.enable", bytes "true"), (bytes "goma.routes.web.path", bytes "/"),
          (bytes "goma.routes.api.path", bytes "/api")] (bytes "api") (bytes "app")).Name =
      bytes "app-api" ∧
    (parseNamedContainerRoute
        [(bytes "goma.enable", bytes "true"), (bytes "goma.routes.web.path", bytes "/"),
          (bytes "goma.routes.api.path", bytes "/api")] (bytes "api") (bytes "app")).Path =
      bytes "/api" ∧
    (parseContainerLabels
        { Names := [bytes "/app"],
          Labels := [(bytes "goma.enable", bytes "true"),
            (bytes "goma.routes.web.path", bytes "/"),
            (bytes "goma.routes.api.path", bytes "/api")] }).map
        (List.map (fun route => (route.Name, route.Path, route.Target))) =
      some [(bytes "app-api", bytes "/api", bytes "http://app:80"),
        (bytes "app-web", bytes "/", bytes "http://app:80")] := by
  have hnd : NodupKeys [(bytes "goma.enable", bytes "true"),
      (bytes "goma.routes.web.path", bytes "/"),
      (bytes "goma.routes.api.path", bytes "/api")] := by
    unfold NodupKeys
    decide
  have h := named_route_name_and_path _ (bytes "api") (bytes "app") hnd
  refine ⟨hnd, h.1.trans (by decide), h.2.trans (by decide), by decide⟩

/-- C5 as amended (single mode yields exactly one route).  A container that
passes the gate, reports a name (its list of names is non-empty and the first
name is non-empty, the identity `n` being that name without its first byte)
and has no key matching the named-route pattern yields exactly one route; its
Name is the value of `goma.name` when that label exists and is non-empty and
`n` otherwise, its Path the value of `goma.path` when non-empty and `/`
otherwise, and it is enabled. -/
theorem single_mode_one_route (container : Container) (n : GoString)
    (hgate : lookup container.Labels (bytes "goma.enable") = some (bytes "true"))
    (hname : firstNameTail container.Names = some n)
    (hsingle : ∀ kv ∈ container.Labels, namedRoutePattern kv.1 = none) :
    ∃ route, parseContainerLabels container = some [route] ∧
      route.Name =
        (match lookup container.Labels (bytes "goma.name") with
          | some v => if v = [] then n else v
          | none => n) ∧
      route.Path =
        (match lookup container.Labels (bytes "goma.path") with
          | some v => if v = [] then bytes "/" else v
          | none => bytes "/") ∧
      route.Enabled = true := by
  refine ⟨parseSingleContainerRoute container.Labels n,
    parseContainerLabels_single container n hgate hname
      (extractRouteNames_eq_nil _ hsingle), ?_, ?_, rfl⟩
  · show getLabel container.Labels (bytes "goma.name") n = _
    rw [getLabel_eq]
  · show (if index container.Labels (bytes "goma.path") = [] then bytes "/"
      else index container.Labels (bytes "goma.path")) = _
    unfold index
    cases lookup container.Labels (bytes "goma.path") with
    | none => simp
    | some v => simp

/-- Witness for C5: scenario 1 of the specification.  Labels
`goma.enable=true`, `goma.port=8080`, `goma.path=/api` with identity `svcA`
give the single route with Name `svcA`, Path `/api`, Target
`http://svcA:8080`, enabled. -/
theorem single_mode_one_route_witness :
    (∃ route,
      parseContainerLabels
          { Names := [bytes "/svcA"],
            Labels := [(bytes "goma.enable", bytes "true"), (bytes "goma.port", bytes "8080"),
              (bytes "goma.path", bytes "/api")] } = some [route] ∧
      route.Name = bytes "svcA" ∧ route.Path = bytes "/api" ∧ route.Enabled = true) ∧
    parseContainerLabels
        { Names := [bytes "/svcA"],
          Labels := [(bytes "goma.enable", bytes "true"), (bytes "goma.port", bytes "8080"),
            (bytes "goma.path", bytes "/api")] } =
      some [{ Name := bytes "svcA", Path := bytes "/api", Target := bytes "http://svcA:8080",
              Enabled := true, Security := { ForwardHostHeaders := true } }] := by
  obtain ⟨route, h1, h2, h3, h4⟩ := single_mode_one_route
    { Names := [bytes "/svcA"],
      Labels := [(bytes "goma.enable", bytes "true"), (bytes "goma.port", bytes "8080"),
        (bytes "goma.path", bytes "/api")] }
    (bytes "svcA") (by decide) (by decide) (by decide)
  exact ⟨⟨route, h1, h2.trans (by decide), h3.trans (by decide), h4⟩, by decide⟩

/-- Counterexample to C5 as stated: the labels of scenario 1 on a container
that reports no name, and on one whose first name is the empty string.  The
container passes the gate and has no key matching the named-route pattern, and
`parseContainerLabels` panics on `container.Names[0][1:]` instead of returning
a list of one route. -/
theorem single_mode_needs_identity :
    lookup [(bytes "goma.enable", bytes "true"), (bytes "goma.port", bytes "8080"),
        (bytes "goma.path", bytes "/api")] (bytes "goma.enable") = some (bytes "true") ∧
    (∀ kv ∈ [(bytes "goma.enable", bytes "true"), (bytes "goma.port", bytes "8080"),
        (bytes "goma.path", bytes "/api")], namedRoutePattern kv.1 = none) ∧
    parseContainerLabels
        { Names := [],
          Labels := [(bytes "goma.enable", bytes "true"), (bytes "goma.port", bytes "8080"),
            (bytes "goma.path", bytes "/api")] } = none ∧
    parseContainerLabels
        { Names := [[]],
          Labels := [(bytes "goma.enable", bytes "true"), (bytes "goma.port", bytes "8080"),
            (bytes "goma.path", bytes "/api")] } = none := by
  decide

/-- C6 (single-mode target assembly and scheme coercion).  The single-mode
container route for identity `n` has Target `s://n:p`, where `s` is `https`
if the label `goma.scheme` is exactly `https` and `http` in every other case,
and `p` is the value of `goma.port` when that label exists and is non-empty
and `80` otherwise. -/
theorem single_mode_target (labels : LabelMap) (n : GoString) :
    (parseSingleContainerRoute labels n).Target =
      (if lookup labels (bytes "goma.scheme") = some (bytes "https") then bytes "https"
        else bytes "http") ++ bytes "://" ++ n ++ bytes ":" ++
      (match lookup labels (bytes "goma.port") with
        | some v => if v = [] then bytes "80" else v
        | none => bytes "80") := by
  show coerceScheme (getLabel labels (bytes "goma.scheme") (bytes "http")) ++ bytes "://" ++ n ++
    bytes ":" ++ getLabel labels (bytes "goma.port") (bytes "80") = _
  rw [coerceScheme_getLabel, getLabel_eq labels (bytes "goma.port")]

/-- The port of a service route when the endpoint specification is present. -/
theorem servicePort_of_endpointSpec (service : Service) (ports : List Nat) (port : GoString)
    (h : service.EndpointSpec = some ports) :
    servicePort service port =
      some (if port = [] then declaredPort ports else port) := by
  unfold servicePort declaredPort
  rw [h]
  by_cases hp : port = []
  · simp only [hp, if_true]
    cases ports <;> rfl
  · simp only [hp, if_false]

/-- Port fallback of a single-mode service route whose endpoint specification
is present: the value of `goma.port` when set to a non-empty string, else the
decimal rendering of the first declared endpoint port, else `80`. -/
theorem single_service_target (service : Service) (labels : LabelMap) (n : GoString)
    (ports : List Nat) (h : service.EndpointSpec = some ports) :
    ∃ route, parseSingleServiceRoute service labels n = some route ∧
      route.Target =
        (if lookup labels (bytes "goma.scheme") = some (bytes "https") then bytes "https"
          else bytes "http") ++ bytes "://" ++ n ++ bytes ":" ++
        (match lookup labels (bytes "goma.port") with
          | some v => if v = [] then declaredPort ports else v
          | none => declaredPort ports) := by
  unfold parseSingleServiceRoute
  simp only [servicePort_of_endpointSpec service ports _ h]
  refine ⟨_, rfl, ?_⟩
  show coerceScheme (getLabel labels (bytes "goma.scheme") (bytes "http")) ++ bytes "://" ++ n ++
    bytes ":" ++ _ = _
  rw [coerceScheme_getLabel]
  congr 1
  unfold index
  cases lookup labels (bytes "goma.port") with
  | none => simp
  | some v => simp

/-- Port fallback of a named-mode service route whose endpoint specification is
present, with the label `goma.routes.r.port`; the scheme comes from the
unit-level label `goma.scheme`. -/
theorem named_service_target (service : Service) (labels : LabelMap) (r n : GoString)
    (ports : List Nat) (hnd : NodupKeys labels) (h : service.EndpointSpec = some ports) :
    ∃ route, parseNamedServiceRoute service labels r n = some route ∧
      route.Target =
        (if lookup labels (bytes "goma.scheme") = some (bytes "https") then bytes "https"
          else bytes "http") ++ bytes "://" ++ n ++ bytes ":" ++
        (match lookup labels (bytes "goma.routes." ++ r ++ bytes "." ++ bytes "port") with
          | some v => if v = [] then declaredPort ports else v
          | none => declaredPort ports) := by
  unfold parseNamedServiceRoute
  simp only [servicePort_of_endpointSpec service ports _ h]
  refine ⟨_, rfl, ?_⟩
  show coerceScheme (getLabel labels (bytes "goma.scheme") (bytes "http")) ++ bytes "://" ++ n ++
    bytes ":" ++ _ = _
  rw [coerceScheme_getLabel]
  congr 1
  unfold index
  rw [lookup_extractRouteLabels _ _ _ hnd]
  cases lookup labels (bytes "goma.routes." ++ r ++ bytes "." ++ bytes "port") with
  | none => simp
  | some v => simp

/-- C7 as amended (named-mode scheme).  In named mode the scheme of the Target
of the route for `r` is resolved from the unit-level label `goma.scheme`, by
the single-mode rule (`https` if the value is exactly `https`, otherwise
`http`); only the port comes from the route's own sub-namespace
(`goma.routes.r.port`), and the label `goma.routes.r.scheme` is not read.  For
a service this holds when its endpoint specification is present. -/
theorem named_route_scheme_from_unit_label (labels : LabelMap) (r c : GoString)
    (service : Service) (ports : List Nat)
    (hnd : NodupKeys labels) (hs : service.EndpointSpec = some ports) :
    (parseNamedContainerRoute labels r c).Target =
      (if lookup labels (bytes "goma.scheme") = some (bytes "https") then bytes "https"
        else bytes "http") ++ bytes "://" ++ c ++ bytes ":" ++
      (match lookup labels (bytes "goma.routes." ++ r ++ bytes "." ++ bytes "port") with
        | some v => if v = [] then bytes "80" else v
        | none => bytes "80") ∧
    ∃ route, parseNamedServiceRoute service labels r c = some route ∧
      route.Target =
        (if lookup labels (bytes "goma.scheme") = some (bytes "https") then bytes "https"
          else bytes "http") ++ bytes "://" ++ c ++ bytes ":" ++
        (match lookup labels (bytes "goma.routes." ++ r ++ bytes "." ++ bytes "port") with
          | some v => if v = [] then declaredPort ports else v
          | none => declaredPort ports) := by
  refine ⟨?_, named_service_target service labels r c ports hnd hs⟩
  show coerceScheme (getLabel labels (bytes "goma.scheme") (bytes "http")) ++ bytes "://" ++ c ++
    bytes ":" ++ getRouteLabel (extractRouteLabels labels (bytes "goma.routes." ++ r ++ bytes "."))
      (bytes "port") (bytes "80") = _
  rw [coerceScheme_getLabel, getRouteLabel_eq, lookup_extractRouteLabels _ _ _ hnd]

/-- Witness for C7 as amended: a unit with `goma.scheme=https` and the named
route `api` on port 8443. -/
theorem named_route_scheme_from_unit_label_witness :
    (parseNamedContainerRoute
        [(bytes "goma.enable", bytes "true"), (bytes "goma.scheme", bytes "https"),
          (bytes "goma.routes.api.port", bytes "8443")] (bytes "api") (bytes "app")).Target =
      bytes "https://app:8443" ∧
    ∃ route,
      parseNamedServiceRoute
          { Name := bytes "app", Labels := [], EndpointSpec := some [9000] }
          [(bytes "goma.enable", bytes "true"), (bytes "goma.scheme", bytes "https"),
            (bytes "goma.routes.api.port", bytes "8443")] (bytes "api") (bytes "app") =
        some route ∧
      route.Target = bytes "https://app:8443" := by
  have hnd : NodupKeys [(bytes "goma.enable", bytes "true"),
      (bytes "goma.scheme", bytes "https"),
      (bytes "goma.routes.api.port", bytes "8443")] := by
    unfold NodupKeys
    decide
  obtain ⟨h1, route, h2, h3⟩ := named_route_scheme_from_unit_label _ (bytes "api") (bytes "app")
    { Name := bytes "app", Labels := [], EndpointSpec := some [9000] } [9000] hnd rfl
  exact ⟨h1.trans (by decide), route, h2, h3.trans (by decide)⟩

/-- Counterexample to C7 as stated: a unit in named mode with
`goma.routes.api.scheme=https` yields for `api` the Target `http://app:80`,
which does not begin with `https://`; the same for a service. -/
theorem named_route_own_scheme_ignored :
    extractRouteNames
        [(bytes "goma.enable", bytes "true"), (bytes "goma.routes.api.scheme", bytes "https")] =
      [bytes "api"] ∧
    (parseNamedContainerRoute
        [(bytes "goma.enable", bytes "true"), (bytes "goma.routes.api.scheme", bytes "https")]
        (bytes "api") (bytes "app")).Target = bytes "http://app:80" ∧
    hasPrefix
        (parseNamedContainerRoute
          [(bytes "goma.enable", bytes "true"),
            (bytes "goma.routes.api.scheme", bytes "https")]
          (bytes "api") (bytes "app")).Target (bytes "https://") = false ∧
    (parseServiceLabels
        { Name := bytes "app",
          Labels := [(bytes "goma.enable", bytes "true"),
            (bytes "goma.routes.api.scheme", bytes "https")],
          EndpointSpec := some [] }).map (List.map Route.Target) =
      some [bytes "http://app:80"] := by
  decide

/-- C8 (service port fallback), the code at the failing input.  With an
endpoint specification the fallback is as claimed: the declared port 9000 of
scenario 3 gives `http://orders:9000`, no declared port gives port `80`, and a
port label wins.  A service whose endpoint specification is nil and whose port
label is unset makes `parseServiceLabels` panic, in single mode and in named
mode, where the claim promises port `80`. -/
theorem service_port_nil_endpoint_panics :
    (parseServiceLabels
        { Name := bytes "orders", Labels := [(bytes "goma.enable", bytes "true")],
          EndpointSpec := some [9000] }).map (List.map Route.Target) =
      some [bytes "http://orders:9000"] ∧
    (parseServiceLabels
        { Name := bytes "orders", Labels := [(bytes "goma.enable", bytes "true")],
          EndpointSpec := some [] }).map (List.map Route.Target) =
      some [bytes "http://orders:80"] ∧
    (parseServiceLabels
        { Name := bytes "orders",
          Labels := [(bytes "goma.enable", bytes "true"), (bytes "goma.port", bytes "8080")],
          EndpointSpec := none }).map (List.map Route.Target) =
      some [bytes "http://orders:8080"] ∧
    parseServiceLabels
        { Name := bytes "orders", Labels := [(bytes "goma.enable", bytes "true")],
          EndpointSpec := none } = none ∧
    parseServiceLabels
        { Name := bytes "orders",
          Labels := [(bytes "goma.enable", bytes "true"),
            (bytes "goma.routes.web.path", bytes "/")],
          EndpointSpec := none } = none := by
  decide
/-! ## Splitting and trimming -/

theorem stringsSplit_ne_nil (s : GoString) (sep : Byte) : stringsSplit s sep ≠ [] := by
  cases s with
  | nil => simp [stringsSplit]
  | cons c cs =>
    unfold stringsSplit
    split
    · simp
    · split <;> simp

/-- What `strings.Split` returns: joining the pieces with the separator gives
the string back, and no piece contains the separator. -/
theorem stringsSplit_spec (s : GoString) (sep : Byte) :
    [sep].intercalate (stringsSplit s sep) = s ∧ ∀ p ∈ stringsSplit s sep, sep ∉ p := by
  induction s with
  | nil => simp [stringsSplit, List.intercalate]
  | cons c cs ih =>
    obtain ⟨ih1, ih2⟩ := ih
    unfold stringsSplit
    by_cases hc : c = sep
    · subst hc
      rw [if_pos rfl]
      constructor
      · cases hsp : stringsSplit cs c with
        | nil => exact absurd hsp (stringsSplit_ne_nil cs c)
        | cons p ps =>
          rw [hsp] at ih1
          rw [← ih1]
          simp [List.intercalate, List.intersperse]
      · intro p hp
        rcases List.mem_cons.1 hp with h | h
        · simp [h]
        · exact ih2 p h
    · rw [if_neg hc]
      cases hsp : stringsSplit cs sep with
      | nil => exact absurd hsp (stringsSplit_ne_nil cs sep)
      | cons p ps =>
        rw [hsp] at ih1 ih2
        constructor
        · rw [← ih1]
          cases ps <;> simp [List.intercalate, List.intersperse]
        · intro q hq
          rcases List.mem_cons.1 hq with h | h
          · subst h
            have := ih2 p (List.mem_cons_self _ _)
            simp only [List.mem_cons, not_or]
            exact ⟨fun e => hc e.symm, this⟩
          · exact ih2 q (List.mem_cons_of_mem _ h)

theorem spaceEncodings_ne_nil : ∀ p ∈ spaceEncodings, p ≠ [] := by decide

theorem leadingSpaceWidth_eq_zero_iff (s : GoString) :
    leadingSpaceWidth s = 0 ↔ ∀ p ∈ spaceEncodings, ¬ p <+: s := by
  unfold leadingSpaceWidth
  constructor
  · intro h p hp hps
    cases hf : spaceEncodings.find? (fun p => p.isPrefixOf s) with
    | none =>
      rw [List.find?_eq_none] at hf
      exact hf p hp ( List.isPrefixOf_iff_prefix.2 hps)
    | some q =>
      rw [hf] at h
      have hq := List.mem_of_find?_eq_some hf
      exact spaceEncodings_ne_nil q hq (List.length_eq_zero.1 h)
  · intro h
    cases hf : spaceEncodings.find? (fun p => p.isPrefixOf s) with
    | none => rfl
    | some q =>
      have hq := List.mem_of_find?_eq_some hf
      have hqs := List.find?_some hf
      exact absurd ( List.isPrefixOf_iff_prefix.1 hqs) (h q hq)

theorem trailingSpaceWidth_eq_zero_iff (s : GoString) :
    trailingSpaceWidth s = 0 ↔ ∀ p ∈ spaceEncodings, ¬ p <:+ s := by
  unfold trailingSpaceWidth
  constructor
  · intro h p hp hps
    cases hf : spaceEncodings.find? (fun p => p.isSuffixOf s) with
    | none =>
      rw [List.find?_eq_none] at hf
      exact hf p hp (List.isSuffixOf_iff_suffix.2 hps)
    | some q =>
      rw [hf] at h
      have hq := List.mem_of_find?_eq_some hf
      exact spaceEncodings_ne_nil q hq (List.length_eq_zero.1 h)
  · intro h
    cases hf : spaceEncodings.find? (fun p => p.isSuffixOf s) with
    | none => rfl
    | some q =>
      have hq := List.mem_of_find?_eq_some hf
      have hqs := List.find?_some hf
      exact absurd (List.isSuffixOf_iff_suffix.1 hqs) (h q hq)

theorem leadingSpaceWidth_le (s : GoString) : leadingSpaceWidth s ≤ s.length := by
  unfold leadingSpaceWidth
  cases hf : spaceEncodings.find? (fun p => p.isPrefixOf s) with
  | none => exact Nat.zero_le _
  | some q =>
    have hqs := List.find?_some hf
    exact ( List.isPrefixOf_iff_prefix.1 hqs).length_le

theorem trailingSpaceWidth_le (s : GoString) : trailingSpaceWidth s ≤ s.length := by
  unfold trailingSpaceWidth
  cases hf : spaceEncodings.find? (fun p => p.isSuffixOf s) with
  | none => exact Nat.zero_le _
  | some q =>
    have hqs := List.find?_some hf
    exact (List.isSuffixOf_iff_suffix.1 hqs).length_le

theorem trimLeftSpace_isSuffix (fuel : Nat) (s : GoString) : trimLeftSpace fuel s <:+ s := by
  induction fuel generalizing s with
  | zero => exact List.suffix_refl s
  | succ n ih =>
    unfold trimLeftSpace
    split
    · exact List.suffix_refl s
    · exact (ih _).trans (List.drop_suffix _ s)

theorem trimRightSpace_isPrefix (fuel : Nat) (s : GoString) : trimRightSpace fuel s <+: s := by
  induction fuel generalizing s with
  | zero => exact List.prefix_refl s
  | succ n ih =>
    unfold trimRightSpace
    split
    · exact List.prefix_refl s
    · exact (ih _).trans ( List.take_prefix _ s)

theorem trimLeftSpace_done (fuel : Nat) (s : GoString) (h : s.length ≤ fuel) :
    leadingSpaceWidth (trimLeftSpace fuel s) = 0 := by
  induction fuel generalizing s with
  | zero =>
    have hs : s = [] := List.length_eq_zero.1 (Nat.le_zero.1 h)
    subst hs
    decide
  | succ n ih =>
    unfold trimLeftSpace
    split
    · assumption
    · rename_i hw
      apply ih
      have := leadingSpaceWidth_le s
      rw [List.length_drop]
      omega

theorem trimRightSpace_done (fuel : Nat) (s : GoString) (h : s.length ≤ fuel) :
    trailingSpaceWidth (trimRightSpace fuel s) = 0 := by
  induction fuel generalizing s with
  | zero =>
    have hs : s = [] := List.length_eq_zero.1 (Nat.le_zero.1 h)
    subst hs
    decide
  | succ n ih =>
    unfold trimRightSpace
    split
    · assumption
    · rename_i hw
      apply ih
      have := trailingSpaceWidth_le s
      rw [List.length_take]
      omega

theorem trimLeftSpace_removed (fuel : Nat) (s : GoString) :
    ∃ ws : List GoString, (∀ w ∈ ws, w ∈ spaceEncodings) ∧
      s = ws.flatten ++ trimLeftSpace fuel s := by
  induction fuel generalizing s with
  | zero => exact ⟨[], by simp, by simp [trimLeftSpace]⟩
  | succ n ih =>
    unfold trimLeftSpace
    split
    · exact ⟨[], by simp, by simp⟩
    · rename_i hw
      unfold leadingSpaceWidth at hw ⊢
      cases hf : spaceEncodings.find? (fun p => p.isPrefixOf s) with
      | none => simp [hf] at hw
      | some q =>
        simp only []
        have hq := List.mem_of_find?_eq_some hf
        have hqs := List.find?_some hf
        obtain ⟨t, rfl⟩ := List.isPrefixOf_iff_prefix.1 hqs
        obtain ⟨ws, hws, hrest⟩ := ih t
        refine ⟨q :: ws, ?_, ?_⟩
        · intro w hw'
          rcases List.mem_cons.1 hw' with h | h
          · exact h ▸ hq
          · exact hws w h
        · rw [List.drop_left, List.flatten_cons, List.append_assoc, ← hrest]

theorem trimRightSpace_removed (fuel : Nat) (s : GoString) :
    ∃ ws : List GoString, (∀ w ∈ ws, w ∈ spaceEncodings) ∧
      s = trimRightSpace fuel s ++ ws.flatten := by
  induction fuel generalizing s with
  | zero => exact ⟨[], by simp, by simp [trimRightSpace]⟩
  | succ n ih =>
    unfold trimRightSpace
    split
    · exact ⟨[], by simp, by simp⟩
    · rename_i hw
      unfold trailingSpaceWidth at hw ⊢
      cases hf : spaceEncodings.find? (fun p => p.isSuffixOf s) with
      | none => simp [hf] at hw
      | some q =>
        simp only []
        have hq := List.mem_of_find?_eq_some hf
        have hqs := List.find?_some hf
        obtain ⟨t, rfl⟩ := List.isSuffixOf_iff_suffix.1 hqs
        obtain ⟨ws, hws, hrest⟩ := ih t
        refine ⟨ws ++ [q], ?_, ?_⟩
        · intro w hw'
          rcases List.mem_append.1 hw' with h | h
          · exact hws w h
          · rw [List.mem_singleton] at h
            exact h ▸ hq
        · have htake : List.take ((t ++ q).length - q.length) (t ++ q) = t := by
            rw [List.length_append, Nat.add_sub_cancel, List.take_left]
          rw [htake, List.flatten_append, ← List.append_assoc, ← hrest]
          simp

/-- What `strings.TrimSpace` returns: `s` without a sequence of white-space
runes at its start and one at its end, such that what remains neither begins
nor ends with a white-space rune. -/
theorem trimSpace_spec (s : GoString) :
    (∃ ws ws' : List GoString,
      (∀ w ∈ ws, w ∈ spaceEncodings) ∧ (∀ w ∈ ws', w ∈ spaceEncodings) ∧
      s = ws.flatten ++ trimSpace s ++ ws'.flatten) ∧
    trimSpace s <:+: s ∧
    (∀ p ∈ spaceEncodings, ¬ p <+: trimSpace s) ∧
    (∀ p ∈ spaceEncodings, ¬ p <:+ trimSpace s) := by
  unfold trimSpace
  simp only []
  refine ⟨?_, ?_, ?_, ?_⟩
  · obtain ⟨ws, hws, h1⟩ := trimLeftSpace_removed s.length s
    obtain ⟨ws', hws', h2⟩ := trimRightSpace_removed (trimLeftSpace s.length s).length
      (trimLeftSpace s.length s)
    refine ⟨ws, ws', hws, hws', ?_⟩
    rw [List.append_assoc, ← h2, ← h1]
  · exact (trimRightSpace_isPrefix _ _).isInfix.trans (trimLeftSpace_isSuffix _ s).isInfix
  · intro p hp hps
    have h0 := trimLeftSpace_done s.length s (Nat.le_refl _)
    rw [leadingSpaceWidth_eq_zero_iff] at h0
    exact h0 p hp (hps.trans (trimRightSpace_isPrefix _ _))
  · have h0 := trimRightSpace_done (trimLeftSpace s.length s).length _ (Nat.le_refl _)
    rw [trailingSpaceWidth_eq_zero_iff] at h0
    exact h0

/-! ## `parseList` and `parseIntList` -/

theorem parseList_loop (items : List GoString) (init : List GoString) :
    items.foldl
      (fun result item =>
        let trimmed := trimSpace item
        if trimmed ≠ [] then result ++ [trimmed] else result) init =
      init ++ (items.map trimSpace).filter (fun piece => piece ≠ []) := by
  induction items generalizing init with
  | nil => simp
  | cons a rest ih =>
    simp only [List.foldl_cons, List.map_cons]
    rw [ih]
    by_cases h : trimSpace a = []
    · simp [h]
    · simp [h, List.filter_cons]

theorem strconvAtoi_nil : strconvAtoi [] = none := by decide

theorem parseIntList_loop (items : List GoString) (init : List Int) :
    items.foldl
      (fun result item =>
        let trimmed := trimSpace item
        if trimmed ≠ [] then
          match strconvAtoi trimmed with
          | some val => result ++ [val]
          | none => result
        else result) init =
      init ++ (items.map trimSpace).filterMap strconvAtoi := by
  induction items generalizing init with
  | nil => simp
  | cons a rest ih =>
    simp only [List.foldl_cons, List.map_cons]
    rw [ih]
    by_cases h : trimSpace a = []
    · simp [h, strconvAtoi_nil, List.filterMap_cons]
    · cases hv : strconvAtoi (trimSpace a) with
      | none => simp [h, hv, List.filterMap_cons]
      | some val => simp [h, hv, List.filterMap_cons]

/-- C9 (list parsing).  `parseList` computes what the specification says:
the pieces of the value between commas (joined by commas they give the value
back, and none contains a comma), each trimmed of leading and trailing white
space, without the pieces that are empty after trimming, in the original
order.  Hence no element of the result is empty, contains a comma, or begins
or ends with a white-space rune.  Scenario: ` a.com, ,b.com ` gives
`a.com`, `b.com`. -/
theorem parseList_refines_spec (value : GoString) :
    parseList value = parseListSpec value ∧
    ([comma].intercalate (stringsSplit value comma) = value ∧
      ∀ piece ∈ stringsSplit value comma, comma ∉ piece) ∧
    (∀ x ∈ parseList value,
      x ≠ [] ∧ comma ∉ x ∧
      (∀ p ∈ spaceEncodings, ¬ p <+: x) ∧ (∀ p ∈ spaceEncodings, ¬ p <:+ x)) ∧
    parseList (bytes " a.com, ,b.com ") = [bytes "a.com", bytes "b.com"] := by
  have hEq : parseList value = parseListSpec value := by
    unfold parseList parseListSpec
    simp only []
    rw [parseList_loop, List.nil_append]
    rfl
  refine ⟨hEq, stringsSplit_spec value comma, ?_, by decide⟩
  intro x hx
  rw [hEq] at hx
  unfold parseListSpec at hx
  rw [List.mem_filter, List.mem_map] at hx
  obtain ⟨⟨piece, hpiece, rfl⟩, hne⟩ := hx
  obtain ⟨-, hpart, hlead, htrail⟩ := trimSpace_spec piece
  refine ⟨by simpa using hne, ?_, hlead, htrail⟩
  intro hc
  exact (stringsSplit_spec value comma).2 piece hpiece (hpart.subset hc)

/-- C10 (integer-list parsing).  `parseIntList` computes what the
specification says: the pieces of the value between commas, each trimmed, and
of these, in order, the value of exactly those that `strconv.Atoi` parses;
empty and unparsable pieces are dropped, and the function is total.  Scenario:
`200,abc,404` gives `200`, `404`. -/
theorem parseIntList_refines_spec (value : GoString) :
    parseIntList value = parseIntListSpec value ∧
    (∀ n, n ∈ parseIntList value ↔
      ∃ piece ∈ stringsSplit value comma, strconvAtoi (trimSpace piece) = some n) ∧
    strconvAtoi [] = none ∧
    parseIntList (bytes "200,abc,404") = [200, 404] := by
  have hEq : parseIntList value = parseIntListSpec value := by
    unfold parseIntList parseIntListSpec
    simp only []
    rw [parseIntList_loop, List.nil_append]
    rfl
  refine ⟨hEq, ?_, strconvAtoi_nil, by decide⟩
  intro n
  rw [hEq]
  unfold parseIntListSpec
  simp [List.mem_filterMap]
/-! ## Field resolution -/

theorem index_eq_labelOr (m : LabelMap) (key : GoString) :
    index m key = labelOr (lookup m key) [] := by
  unfold index labelOr
  cases lookup m key with
  | none => rfl
  | some v => by_cases hv : v = [] <;> simp [hv]

theorem getLabel_eq_labelOr (m : LabelMap) (key d : GoString) :
    getLabel m key d = labelOr (lookup m key) d := by
  rw [getLabel_eq]
  rfl

theorem getRouteLabel_eq_labelOr (m : LabelMap) (key d : GoString) :
    getRouteLabel m key d = labelOr (lookup m key) d := by
  rw [getRouteLabel_eq]
  rfl

theorem strconvParseBool_eq (v : GoString) :
    strconvParseBool v =
      if v ∈ trueWords then some true else if v ∈ falseWords then some false else none := by
  unfold strconvParseBool trueWords falseWords
  simp only [List.mem_cons, List.mem_singleton, List.not_mem_nil, or_false]

theorem parseBool_eq_spec (m : LabelMap) (key : GoString) (d : Bool) :
    parseBool m key d = boolLabelSpec (lookup m key) d := by
  unfold parseBool boolLabelSpec
  cases lookup m key with
  | none => rfl
  | some v =>
    simp only [strconvParseBool_eq]
    by_cases h1 : v ∈ trueWords
    · simp [h1]
    · by_cases h2 : v ∈ falseWords
      · simp [h1, h2]
      · simp [h1, h2]

theorem parseBoolFromMap_eq_spec (m : LabelMap) (key : GoString) (d : Bool) :
    parseBoolFromMap m key d = boolLabelSpec (lookup m key) d := by
  unfold parseBoolFromMap boolLabelSpec
  cases lookup m key with
  | none => rfl
  | some v =>
    simp only [strconvParseBool_eq]
    by_cases h1 : v ∈ trueWords
    · simp [h1]
    · by_cases h2 : v ∈ falseWords
      · simp [h1, h2]
      · simp [h1, h2]

theorem parseRouteLabels_HealthCheck (route : Route) (labels : LabelMap)
    (h : route.HealthCheck = {}) :
    (parseRouteLabels route labels).HealthCheck =
      healthCheckSpec (lookup labels (bytes "goma.health_check.path"))
        (lookup labels (bytes "goma.health_check.interval"))
        (lookup labels (bytes "goma.health_check.timeout"))
        (lookup labels (bytes "goma.health_check.healthy_statuses")) := by
  show (if index labels (bytes "goma.health_check.path") ≠ [] then _ else route.HealthCheck) = _
  unfold healthCheckSpec
  simp only [index_eq_labelOr, getLabel_eq_labelOr, h]
  by_cases hp : labelOr (lookup labels (bytes "goma.health_check.path")) [] = []
  · simp [hp]
  · by_cases hs : labelOr (lookup labels (bytes "goma.health_check.healthy_statuses")) [] = []
    · simp [hp, hs]
    · simp [hp, hs]

theorem parseRouteFields_HealthCheck (route : Route) (labels : LabelMap)
    (h : route.HealthCheck = {}) :
    (parseRouteFields route labels).HealthCheck =
      healthCheckSpec (lookup labels (bytes "health_check.path"))
        (lookup labels (bytes "health_check.interval"))
        (lookup labels (bytes "health_check.timeout"))
        (lookup labels (bytes "health_check.healthy_statuses")) := by
  show (if index labels (bytes "health_check.path") ≠ [] then _ else route.HealthCheck) = _
  unfold healthCheckSpec
  simp only [index_eq_labelOr, getRouteLabel_eq_labelOr, h]
  by_cases hp : labelOr (lookup labels (bytes "health_check.path")) [] = []
  · simp [hp]
  · by_cases hs : labelOr (lookup labels (bytes "health_check.healthy_statuses")) [] = []
    · simp [hp, hs]
    · simp [hp, hs]

theorem parseRouteLabels_Priority (route : Route) (labels : LabelMap) (h : route.Priority = 0) :
    (parseRouteLabels route labels).Priority = prioritySpec (lookup labels (bytes "goma.priority")) := by
  show (if index labels (bytes "goma.priority") ≠ [] then _ else route.Priority) = _
  unfold prioritySpec index
  rw [h]
  cases lookup labels (bytes "goma.priority") with
  | none => simp
  | some v =>
    by_cases hv : v = []
    · subst hv
      simp [strconvAtoi_nil]
    · simp only [Option.getD_some, ne_eq, hv, not_false_eq_true, if_true]

theorem parseRouteFields_Priority (route : Route) (labels : LabelMap) (h : route.Priority = 0) :
    (parseRouteFields route labels).Priority = prioritySpec (lookup labels (bytes "priority")) := by
  show (if index labels (bytes "priority") ≠ [] then _ else route.Priority) = _
  unfold prioritySpec index
  rw [h]
  cases lookup labels (bytes "priority") with
  | none => simp
  | some v =>
    by_cases hv : v = []
    · subst hv
      simp [strconvAtoi_nil]
    · simp only [Option.getD_some, ne_eq, hv, not_false_eq_true, if_true]

/-- A named container route is the field parser applied to the labels of the
route. -/
theorem parseNamedContainerRoute_eq (labels : LabelMap) (r n : GoString) :
    ∃ route : Route, route.HealthCheck = {} ∧ route.Priority = 0 ∧
      parseNamedContainerRoute labels r n =
        parseRouteFields route (extractRouteLabels labels (bytes "goma.routes." ++ r ++ bytes ".")) :=
  ⟨_, rfl, rfl, rfl⟩

/-- A single-mode container route is the field parser applied to the labels of
the unit. -/
theorem parseSingleContainerRoute_eq (labels : LabelMap) (n : GoString) :
    ∃ route : Route, route.HealthCheck = {} ∧ route.Priority = 0 ∧
      parseSingleContainerRoute labels n = parseRouteLabels route labels :=
  ⟨_, rfl, rfl, rfl⟩

theorem parseNamedServiceRoute_eq (service : Service) (labels : LabelMap) (r n : GoString)
    (out : Route) (h : parseNamedServiceRoute service labels r n = some out) :
    ∃ route : Route, route.HealthCheck = {} ∧ route.Priority = 0 ∧
      route.Enabled = parseBoolFromMap
        (extractRouteLabels labels (bytes "goma.routes." ++ r ++ bytes ".")) (bytes "enabled") true ∧
      route.Path ≠ [] ∧ route.Target ≠ [] ∧
      out = parseRouteFields route
        (extractRouteLabels labels (bytes "goma.routes." ++ r ++ bytes ".")) := by
  unfold parseNamedServiceRoute at h
  simp only [] at h
  split at h
  · exact absurd h (by simp)
  · rename_i port hport
    refine ⟨_, ?_, ?_, ?_, ?_, ?_, (Option.some.inj h).symm⟩
    · rfl
    · rfl
    · rfl
    · show (match lookup _ (bytes "path") with
        | some path => if path = [] then bytes "/" else path
        | none => bytes "/") ≠ []
      have hs : bytes "/" ≠ [] := by decide
      split
      · split
        · exact hs
        · assumption
      · exact hs
    · show _ ++ bytes "://" ++ n ++ bytes ":" ++ port ≠ []
      have hs : bytes ":" ≠ [] := by decide
      simp [hs]

theorem parseSingleServiceRoute_eq (service : Service) (labels : LabelMap) (n : GoString)
    (out : Route) (h : parseSingleServiceRoute service labels n = some out) :
    ∃ route : Route, route.HealthCheck = {} ∧ route.Priority = 0 ∧ route.Enabled = true ∧
      route.Path ≠ [] ∧ route.Target ≠ [] ∧ out = parseRouteLabels route labels := by
  unfold parseSingleServiceRoute at h
  simp only [] at h
  split at h
  · exact absurd h (by simp)
  · rename_i port hport
    refine ⟨_, ?_, ?_, ?_, ?_, ?_, (Option.some.inj h).symm⟩
    · rfl
    · rfl
    · rfl
    · show (if index labels (bytes "goma.path") = [] then bytes "/"
        else index labels (bytes "goma.path")) ≠ []
      have hs : bytes "/" ≠ [] := by decide
      split
      · exact hs
      · assumption
    · show _ ++ bytes "://" ++ n ++ bytes ":" ++ port ≠ []
      have hs : bytes ":" ≠ [] := by decide
      simp [hs]
/-- C11 (health-check gating).  In single mode and in named mode the
HealthCheck block of a route is the block of the specification, computed from
the labels `goma.health_check.*`, or `goma.routes.r.health_check.*`: the zero
value when the path label is absent or empty, whatever the interval, timeout
and statuses labels say, and otherwise that Path, the interval label or `30s`,
the timeout label or `5s`, and `parseIntList` of the statuses label when it is
non-empty.  The same holds for every route a service parser returns. -/
theorem health_check_gating (labels : LabelMap) (r n : GoString) (service : Service)
    (hnd : NodupKeys labels) :
    (parseSingleContainerRoute labels n).HealthCheck =
      healthCheckSpec (lookup labels (bytes "goma.health_check.path"))
        (lookup labels (bytes "goma.health_check.interval"))
        (lookup labels (bytes "goma.health_check.timeout"))
        (lookup labels (bytes "goma.health_check.healthy_statuses")) ∧
    (parseNamedContainerRoute labels r n).HealthCheck =
      healthCheckSpec
        (lookup labels (bytes "goma.routes." ++ r ++ bytes "." ++ bytes "health_check.path"))
        (lookup labels (bytes "goma.routes." ++ r ++ bytes "." ++ bytes "health_check.interval"))
        (lookup labels (bytes "goma.routes." ++ r ++ bytes "." ++ bytes "health_check.timeout"))
        (lookup labels
          (bytes "goma.routes." ++ r ++ bytes "." ++ bytes "health_check.healthy_statuses")) ∧
    (∀ route, parseSingleServiceRoute service labels n = some route →
      route.HealthCheck = (parseSingleContainerRoute labels n).HealthCheck) ∧
    (∀ route, parseNamedServiceRoute service labels r n = some route →
      route.HealthCheck = (parseNamedContainerRoute labels r n).HealthCheck) ∧
    (∀ interval timeout statuses,
      healthCheckSpec none interval timeout statuses = {} ∧
      healthCheckSpec (some []) interval timeout statuses = {}) := by
  have hnamed : ∀ route : Route, route.HealthCheck = {} →
      (parseRouteFields route
        (extractRouteLabels labels (bytes "goma.routes." ++ r ++ bytes "."))).HealthCheck =
      healthCheckSpec
        (lookup labels (bytes "goma.routes." ++ r ++ bytes "." ++ bytes "health_check.path"))
        (lookup labels (bytes "goma.routes." ++ r ++ bytes "." ++ bytes "health_check.interval"))
        (lookup labels (bytes "goma.routes." ++ r ++ bytes "." ++ bytes "health_check.timeout"))
        (lookup labels
          (bytes "goma.routes." ++ r ++ bytes "." ++ bytes "health_check.healthy_statuses")) := by
    intro route h
    rw [parseRouteFields_HealthCheck route _ h]
    simp only [lookup_extractRouteLabels _ _ _ hnd]
  refine ⟨parseRouteLabels_HealthCheck _ labels rfl, hnamed _ rfl, ?_, ?_, ?_⟩
  · intro route h
    obtain ⟨base, h1, -, -, -, -, rfl⟩ := parseSingleServiceRoute_eq service labels n route h
    rw [parseRouteLabels_HealthCheck base labels h1]
    exact (parseRouteLabels_HealthCheck _ labels rfl).symm
  · intro route h
    obtain ⟨base, h1, -, -, -, -, rfl⟩ := parseNamedServiceRoute_eq service labels r n route h
    rw [hnamed base h1]
    exact (hnamed _ rfl).symm
  · intro interval timeout statuses
    exact ⟨rfl, rfl⟩

/-- Witness for C11: a unit whose single-mode labels set the interval but not
the path has the zero block, while its named route `api` sets the path and the
statuses. -/
theorem health_check_gating_witness :
    (parseSingleContainerRoute
        [(bytes "goma.enable", bytes "true"), (bytes "goma.health_check.interval", bytes "9s"),
          (bytes "goma.routes.api.health_check.path", bytes "/healthz"),
          (bytes "goma.routes.api.health_check.healthy_statuses", bytes "200,abc,404")]
        (bytes "app")).HealthCheck = {} ∧
    (parseNamedContainerRoute
        [(bytes "goma.enable", bytes "true"), (bytes "goma.health_check.interval", bytes "9s"),
          (bytes "goma.routes.api.health_check.path", bytes "/healthz"),
          (bytes "goma.routes.api.health_check.healthy_statuses", bytes "200,abc,404")]
        (bytes "api") (bytes "app")).HealthCheck =
      { Path := bytes "/healthz", Interval := bytes "30s", Timeout := bytes "5s",
        HealthyStatuses := [200, 404] } := by
  have hnd : NodupKeys
      [(bytes "goma.enable", bytes "true"), (bytes "goma.health_check.interval", bytes "9s"),
        (bytes "goma.routes.api.health_check.path", bytes "/healthz"),
        (bytes "goma.routes.api.health_check.healthy_statuses", bytes "200,abc,404")] := by
    unfold NodupKeys
    decide
  obtain ⟨h1, h2, -⟩ := health_check_gating _ (bytes "api") (bytes "app")
    { Name := bytes "app", Labels := [], EndpointSpec := none } hnd
  exact ⟨h1.trans (by decide), h2.trans (by decide)⟩

/-- C12 (priority fallback).  In single mode and in named mode the Priority
of a route is the integer that the priority label denotes when `strconv.Atoi`
parses it, and `0` when the label is absent, empty or does not parse; the
parsers are total functions, so a malformed priority neither fails nor drops
the route.  The same holds for every route a service parser returns. -/
theorem priority_fallback (labels : LabelMap) (r n : GoString) (service : Service)
    (hnd : NodupKeys labels) :
    (parseSingleContainerRoute labels n).Priority =
      prioritySpec (lookup labels (bytes "goma.priority")) ∧
    (parseNamedContainerRoute labels r n).Priority =
      prioritySpec (lookup labels (bytes "goma.routes." ++ r ++ bytes "." ++ bytes "priority")) ∧
    (∀ route, parseSingleServiceRoute service labels n = some route →
      route.Priority = prioritySpec (lookup labels (bytes "goma.priority"))) ∧
    (∀ route, parseNamedServiceRoute service labels r n = some route →
      route.Priority =
        prioritySpec
          (lookup labels (bytes "goma.routes." ++ r ++ bytes "." ++ bytes "priority"))) ∧
    prioritySpec none = 0 ∧ prioritySpec (some []) = 0 ∧
    prioritySpec (some (bytes "abc")) = 0 ∧ prioritySpec (some (bytes "42")) = 42 ∧
    prioritySpec (some (bytes "-7")) = -7 ∧
    prioritySpec (some (bytes "9223372036854775807")) = 9223372036854775807 ∧
    prioritySpec (some (bytes "9223372036854775808")) = 0 := by
  have hnamed : ∀ route : Route, route.Priority = 0 →
      (parseRouteFields route
        (extractRouteLabels labels (bytes "goma.routes." ++ r ++ bytes "."))).Priority =
      prioritySpec
        (lookup labels (bytes "goma.routes." ++ r ++ bytes "." ++ bytes "priority")) := by
    intro route h
    rw [parseRouteFields_Priority route _ h, lookup_extractRouteLabels _ _ _ hnd]
  refine ⟨parseRouteLabels_Priority _ labels rfl, hnamed _ rfl, ?_, ?_,
    by decide, by decide, by decide, by decide, by decide, by decide, by decide⟩
  · intro route h
    obtain ⟨base, -, h1, -, -, -, rfl⟩ := parseSingleServiceRoute_eq service labels n route h
    exact parseRouteLabels_Priority base labels h1
  · intro route h
    obtain ⟨base, -, h1, -, -, -, rfl⟩ := parseNamedServiceRoute_eq service labels r n route h
    exact hnamed base h1

/-- Witness for C12: `goma.priority=abc` leaves the priority at `0`, and
`goma.routes.api.priority=10` sets it. -/
theorem priority_fallback_witness :
    (parseSingleContainerRoute
        [(bytes "goma.enable", bytes "true"), (bytes "goma.priority", bytes "abc"),
          (bytes "goma.routes.api.priority", bytes "10")] (bytes "app")).Priority = 0 ∧
    (parseNamedContainerRoute
        [(bytes "goma.enable", bytes "true"), (bytes "goma.priority", bytes "abc"),
          (bytes "goma.routes.api.priority", bytes "10")]
        (bytes "api") (bytes "app")).Priority = 10 := by
  have hnd : NodupKeys
      [(bytes "goma.enable", bytes "true"), (bytes "goma.priority", bytes "abc"),
        (bytes "goma.routes.api.priority", bytes "10")] := by
    unfold NodupKeys
    decide
  obtain ⟨h1, h2, -⟩ := priority_fallback _ (bytes "api") (bytes "app")
    { Name := bytes "app", Labels := [], EndpointSpec := none } hnd
  exact ⟨h1.trans (by decide), h2.trans (by decide)⟩
/-- C13 (boolean fallback).  In single mode and in named mode each boolean
field resolved by `parseBool` and `parseBoolFromMap` is the boolean of the
specification: the parsed value when the label is one of `1`, `t`, `T`,
`TRUE`, `true`, `True` (true) or `0`, `f`, `F`, `FALSE`, `false`, `False`
(false), and the default when the label is absent, empty or anything else.
The defaults are true for `security.forward_host_headers` and for the
named-mode `enabled`, and false for `security.enable_exploit_protection`,
`security.tls.insecure_skip_verify` and `disable_metrics`. -/
theorem boolean_fallback (labels : LabelMap) (r n : GoString) (hnd : NodupKeys labels) :
    ((parseSingleContainerRoute labels n).Security.ForwardHostHeaders =
        boolLabelSpec (lookup labels (bytes "goma.security.forward_host_headers")) true ∧
      (parseSingleContainerRoute labels n).Security.EnableExploitProtection =
        boolLabelSpec (lookup labels (bytes "goma.security.enable_exploit_protection")) false ∧
      (parseSingleContainerRoute labels n).Security.TLS.InsecureSkipVerify =
        boolLabelSpec (lookup labels (bytes "goma.security.tls.insecure_skip_verify")) false ∧
      (parseSingleContainerRoute labels n).DisableMetrics =
        boolLabelSpec (lookup labels (bytes "goma.disable_metrics")) false) ∧
    ((parseNamedContainerRoute labels r n).Security.ForwardHostHeaders =
        boolLabelSpec
          (lookup labels
            (bytes "goma.routes." ++ r ++ bytes "." ++ bytes "security.forward_host_headers"))
          true ∧
      (parseNamedContainerRoute labels r n).Security.EnableExploitProtection =
        boolLabelSpec
          (lookup labels
            (bytes "goma.routes." ++ r ++ bytes "." ++
              bytes "security.enable_exploit_protection"))
          false ∧
      (parseNamedContainerRoute labels r n).Security.TLS.InsecureSkipVerify =
        boolLabelSpec
          (lookup labels
            (bytes "goma.routes." ++ r ++ bytes "." ++ bytes "security.tls.insecure_skip_verify"))
          false ∧
      (parseNamedContainerRoute labels r n).DisableMetrics =
        boolLabelSpec
          (lookup labels (bytes "goma.routes." ++ r ++ bytes "." ++ bytes "disable_metrics"))
          false ∧
      (parseNamedContainerRoute labels r n).Enabled =
        boolLabelSpec
          (lookup labels (bytes "goma.routes." ++ r ++ bytes "." ++ bytes "enabled")) true) ∧
    (∀ d, boolLabelSpec none d = d ∧ boolLabelSpec (some []) d = d ∧
      boolLabelSpec (some (bytes "maybe")) d = d ∧
      (∀ w ∈ trueWords, boolLabelSpec (some w) d = true) ∧
      (∀ w ∈ falseWords, boolLabelSpec (some w) d = false)) := by
  refine ⟨⟨?_, ?_, ?_, ?_⟩, ⟨?_, ?_, ?_, ?_, ?_⟩, ?_⟩
  · exact parseBool_eq_spec labels _ true
  · exact parseBool_eq_spec labels _ false
  · exact parseBool_eq_spec labels _ false
  · exact parseBool_eq_spec labels _ false
  · show parseBoolFromMap _ _ true = _
    rw [parseBoolFromMap_eq_spec, lookup_extractRouteLabels _ _ _ hnd]
  · show parseBoolFromMap _ _ false = _
    rw [parseBoolFromMap_eq_spec, lookup_extractRouteLabels _ _ _ hnd]
  · show parseBoolFromMap _ _ false = _
    rw [parseBoolFromMap_eq_spec, lookup_extractRouteLabels _ _ _ hnd]
  · show parseBoolFromMap _ _ false = _
    rw [parseBoolFromMap_eq_spec, lookup_extractRouteLabels _ _ _ hnd]
  · show parseBoolFromMap _ _ true = _
    rw [parseBoolFromMap_eq_spec, lookup_extractRouteLabels _ _ _ hnd]
  · intro d
    refine ⟨rfl, by cases d <;> decide, by cases d <;> decide, ?_, ?_⟩
    · cases d <;> decide
    · cases d <;> decide

/-- Witness for C13: `maybe` keeps the default true of
`security.forward_host_headers`, `T` sets `disable_metrics`, and `0` clears the
named-mode `enabled`. -/
theorem boolean_fallback_witness :
    (parseSingleContainerRoute
        [(bytes "goma.security.forward_host_headers", bytes "maybe"),
          (bytes "goma.disable_metrics", bytes "T"),
          (bytes "goma.routes.api.enabled", bytes "0")]
        (bytes "app")).Security.ForwardHostHeaders = true ∧
    (parseSingleContainerRoute
        [(bytes "goma.security.forward_host_headers", bytes "maybe"),
          (bytes "goma.disable_metrics", bytes "T"),
          (bytes "goma.routes.api.enabled", bytes "0")]
        (bytes "app")).DisableMetrics = true ∧
    (parseNamedContainerRoute
        [(bytes "goma.security.forward_host_headers", bytes "maybe"),
          (bytes "goma.disable_metrics", bytes "T"),
          (bytes "goma.routes.api.enabled", bytes "0")]
        (bytes "api") (bytes "app")).Enabled = false := by
  have hnd : NodupKeys
      [(bytes "goma.security.forward_host_headers", bytes "maybe"),
        (bytes "goma.disable_metrics", bytes "T"),
        (bytes "goma.routes.api.enabled", bytes "0")] := by
    unfold NodupKeys
    decide
  obtain ⟨⟨h1, -, -, h2⟩, ⟨-, -, -, -, h3⟩, -⟩ :=
    boolean_fallback _ (bytes "api") (bytes "app") hnd
  exact ⟨h1.trans (by decide), h2.trans (by decide), h3.trans (by decide)⟩

/-- C16 (route invariant).  Every route returned by one of the four per-unit
parsers has a non-empty Path and a non-empty Target. -/
theorem route_path_and_target_nonempty (labels : LabelMap) (r n : GoString)
    (service : Service) :
    ((parseSingleContainerRoute labels n).Path ≠ [] ∧
      (parseSingleContainerRoute labels n).Target ≠ []) ∧
    ((parseNamedContainerRoute labels r n).Path ≠ [] ∧
      (parseNamedContainerRoute labels r n).Target ≠ []) ∧
    (∀ route, parseSingleServiceRoute service labels n = some route →
      route.Path ≠ [] ∧ route.Target ≠ []) ∧
    (∀ route, parseNamedServiceRoute service labels r n = some route →
      route.Path ≠ [] ∧ route.Target ≠ []) := by
  have hslash : bytes "/" ≠ [] := by decide
  have hcolon : bytes ":" ≠ [] := by decide
  refine ⟨⟨?_, ?_⟩, ⟨?_, ?_⟩, ?_, ?_⟩
  · show (if index labels (bytes "goma.path") = [] then bytes "/"
      else index labels (bytes "goma.path")) ≠ []
    split
    · exact hslash
    · assumption
  · show _ ++ bytes "://" ++ n ++ bytes ":" ++ _ ≠ []
    simp [hcolon]
  · show (match lookup _ (bytes "path") with
      | some path => if path = [] then bytes "/" else path
      | none => bytes "/") ≠ []
    split
    · split
      · exact hslash
      · assumption
    · exact hslash
  · show _ ++ bytes "://" ++ n ++ bytes ":" ++ _ ≠ []
    simp [hcolon]
  · intro route h
    obtain ⟨base, -, -, -, h1, h2, rfl⟩ := parseSingleServiceRoute_eq service labels n route h
    exact ⟨h1, h2⟩
  · intro route h
    obtain ⟨base, -, -, -, h1, h2, rfl⟩ := parseNamedServiceRoute_eq service labels r n route h
    exact ⟨h1, h2⟩

/-- C19 as amended (the enabled field).  In named mode the Enabled field of
the route for `r` is the boolean of the label `goma.routes.r.enabled` when it
is set and parsable, and true otherwise.  In single mode there is no enabled
label: Enabled is true whatever the labels say, `goma.enabled` included. -/
theorem enabled_by_mode (labels : LabelMap) (r n : GoString) (service : Service)
    (hnd : NodupKeys labels) :
    (parseSingleContainerRoute labels n).Enabled = true ∧
    (∀ route, parseSingleServiceRoute service labels n = some route → route.Enabled = true) ∧
    (parseNamedContainerRoute labels r n).Enabled =
      boolLabelSpec
        (lookup labels (bytes "goma.routes." ++ r ++ bytes "." ++ bytes "enabled")) true ∧
    (∀ route, parseNamedServiceRoute service labels r n = some route →
      route.Enabled =
        boolLabelSpec
          (lookup labels (bytes "goma.routes." ++ r ++ bytes "." ++ bytes "enabled")) true) := by
  refine ⟨rfl, ?_, ?_, ?_⟩
  · intro route h
    obtain ⟨base, -, -, h1, -, -, rfl⟩ := parseSingleServiceRoute_eq service labels n route h
    exact h1
  · show parseBoolFromMap _ _ true = _
    rw [parseBoolFromMap_eq_spec, lookup_extractRouteLabels _ _ _ hnd]
  · intro route h
    obtain ⟨base, -, -, h1, -, -, rfl⟩ := parseNamedServiceRoute_eq service labels r n route h
    show base.Enabled = _
    rw [h1, parseBoolFromMap_eq_spec, lookup_extractRouteLabels _ _ _ hnd]

/-- Witness for C19 as amended: `goma.enabled=false` leaves a single-mode
route enabled, and `goma.routes.api.enabled=false` disables the route `api`. -/
theorem enabled_by_mode_witness :
    (parseSingleContainerRoute
        [(bytes "goma.enable", bytes "true"), (bytes "goma.enabled", bytes "false"),
          (bytes "goma.routes.api.enabled", bytes "false")] (bytes "app")).Enabled = true ∧
    (parseNamedContainerRoute
        [(bytes "goma.enable", bytes "true"), (bytes "goma.enabled", bytes "false"),
          (bytes "goma.routes.api.enabled", bytes "false")]
        (bytes "api") (bytes "app")).Enabled = false := by
  have hnd : NodupKeys
      [(bytes "goma.enable", bytes "true"), (bytes "goma.enabled", bytes "false"),
        (bytes "goma.routes.api.enabled", bytes "false")] := by
    unfold NodupKeys
    decide
  obtain ⟨h1, -, h2, -⟩ := enabled_by_mode _ (bytes "api") (bytes "app")
    { Name := bytes "app", Labels := [], EndpointSpec := none } hnd
  exact ⟨h1, h2.trans (by decide)⟩

/-- Counterexample to C19 as stated: a single-mode container, and a
single-mode service, labelled `goma.enabled=false` yield a route whose Enabled
is true. -/
theorem single_mode_enabled_label_ignored :
    extractRouteNames
        [(bytes "goma.enable", bytes "true"), (bytes "goma.enabled", bytes "false")] = [] ∧
    (parseContainerLabels
        { Names := [bytes "/app"],
          Labels := [(bytes "goma.enable", bytes "true"),
            (bytes "goma.enabled", bytes "false")] }).map (List.map Route.Enabled) =
      some [true] ∧
    (parseServiceLabels
        { Name := bytes "app",
          Labels := [(bytes "goma.enable", bytes "true"),
            (bytes "goma.enabled", bytes "false")],
          EndpointSpec := some [] }).map (List.map Route.Enabled) = some [true] := by
  decide
/-! ## The two families of field parsers -/

theorem lookup_withGomaNamespace (m : LabelMap) (key : GoString) :
    lookup (withGomaNamespace m) (bytes "goma." ++ key) = lookup m key := by
  induction m with
  | nil => rfl
  | cons kv rest ih =>
    obtain ⟨k, v⟩ := kv
    unfold withGomaNamespace at ih ⊢
    simp only [List.map_cons, lookup, List.append_cancel_left_eq]
    by_cases hk : k = key
    · simp [hk]
    · simp [hk, ih]

theorem index_withGomaNamespace (m : LabelMap) (key : GoString) :
    index (withGomaNamespace m) (bytes "goma." ++ key) = index m key := by
  unfold index
  rw [lookup_withGomaNamespace]

theorem getLabel_withGomaNamespace (m : LabelMap) (key d : GoString) :
    getLabel (withGomaNamespace m) (bytes "goma." ++ key) d = getRouteLabel m key d := by
  rw [getLabel_eq, getRouteLabel_eq, lookup_withGomaNamespace]

theorem parseBool_withGomaNamespace (m : LabelMap) (key : GoString) (d : Bool) :
    parseBool (withGomaNamespace m) (bytes "goma." ++ key) d = parseBoolFromMap m key d := by
  rw [parseBool_eq_spec, parseBoolFromMap_eq_spec, lookup_withGomaNamespace]

/-- C20 (the two field-resolution families agree up to the namespace).  For
every route `route` and every map `m` from bare field names to values,
`parseRouteFields` on `m` gives the same route as `parseRouteLabels` on the
map that has the key `goma.` followed by `k`, with the same value, for every
entry `k` of `m`. -/
theorem parseRouteFields_eq_parseRouteLabels (route : Route) (m : LabelMap) :
    parseRouteFields route m = parseRouteLabels route (withGomaNamespace m) := by
  have k1 : bytes "goma.rewrite" = bytes "goma." ++ bytes "rewrite" := by decide
  have k2 : bytes "goma.priority" = bytes "goma." ++ bytes "priority" := by decide
  have k3 : bytes "goma.hosts" = bytes "goma." ++ bytes "hosts" := by decide
  have k4 : bytes "goma.methods" = bytes "goma." ++ bytes "methods" := by decide
  have k5 : bytes "goma.health_check.path" = bytes "goma." ++ bytes "health_check.path" := by
    decide
  have k6 : bytes "goma.health_check.interval" =
      bytes "goma." ++ bytes "health_check.interval" := by decide
  have k7 : bytes "goma.health_check.timeout" =
      bytes "goma." ++ bytes "health_check.timeout" := by decide
  have k8 : bytes "goma.health_check.healthy_statuses" =
      bytes "goma." ++ bytes "health_check.healthy_statuses" := by decide
  have k9 : bytes "goma.security.forward_host_headers" =
      bytes "goma." ++ bytes "security.forward_host_headers" := by decide
  have k10 : bytes "goma.security.enable_exploit_protection" =
      bytes "goma." ++ bytes "security.enable_exploit_protection" := by decide
  have k11 : bytes "goma.security.tls.insecure_skip_verify" =
      bytes "goma." ++ bytes "security.tls.insecure_skip_verify" := by decide
  have k12 : bytes "goma.disable_metrics" = bytes "goma." ++ bytes "disable_metrics" := by
    decide
  have k13 : bytes "goma.middlewares" = bytes "goma." ++ bytes "middlewares" := by decide
  unfold parseRouteFields parseRouteLabels
  rw [k1, k2, k3, k4, k5, k6, k7, k8, k9, k10, k11, k12, k13]
  simp only [index_withGomaNamespace, getLabel_withGomaNamespace, parseBool_withGomaNamespace]
/-! ## The iteration order of a label map -/

theorem lookup_eq_some_iff (m : LabelMap) (hnd : NodupKeys m) (k v : GoString) :
    lookup m k = some v ↔ (k, v) ∈ m := by
  induction m with
  | nil => simp [lookup]
  | cons kv rest ih =>
    obtain ⟨k', v'⟩ := kv
    have hnd' : k' ∉ rest.map Prod.fst ∧ NodupKeys rest := by
      unfold NodupKeys at hnd ⊢
      simpa using hnd
    by_cases hk : k' = k
    · subst hk
      simp only [lookup, if_true, Option.some.injEq, List.mem_cons, Prod.mk.injEq, true_and]
      constructor
      · intro h
        exact Or.inl h.symm
      · rintro (h | h)
        · exact h.symm
        · exact absurd (List.mem_map_of_mem Prod.fst h) hnd'.1
    · simp only [lookup, if_neg hk, List.mem_cons, Prod.mk.injEq]
      rw [ih hnd'.2]
      constructor
      · exact Or.inr
      · rintro (h | h)
        · exact absurd h.1.symm hk
        · exact h

theorem NodupKeys.perm {a b : LabelMap} (hnd : NodupKeys a) (h : a.Perm b) : NodupKeys b := by
  unfold NodupKeys at hnd ⊢
  exact (h.map Prod.fst).nodup_iff.1 hnd

theorem lookup_perm (a b : LabelMap) (hnd : NodupKeys a) (h : a.Perm b) (k : GoString) :
    lookup a k = lookup b k := by
  have hb := hnd.perm h
  cases hl : lookup b k with
  | some v =>
    rw [lookup_eq_some_iff a hnd]
    exact h.mem_iff.2 ((lookup_eq_some_iff b hb k v).1 hl)
  | none =>
    cases hl' : lookup a k with
    | none => rfl
    | some v =>
      have := (lookup_eq_some_iff b hb k v).2 (h.mem_iff.1 ((lookup_eq_some_iff a hnd k v).1 hl'))
      rw [hl] at this
      exact absurd this (by simp)

theorem extractRouteNames_perm (a b : LabelMap) (h : a.Perm b) :
    extractRouteNames a = extractRouteNames b := by
  haveI : IsAntisymm GoString (fun x y => x < y) := ⟨fun x y hxy hyx => absurd hxy (lt_asymm hyx)⟩
  apply List.eq_of_perm_of_sorted _ (extractRouteNames_sorted a) (extractRouteNames_sorted b)
  have hna : (extractRouteNames a).Nodup := (extractRouteNames_sorted a).nodup
  have hnb : (extractRouteNames b).Nodup := (extractRouteNames_sorted b).nodup
  rw [List.perm_ext_iff_of_nodup hna hnb]
  intro r
  rw [mem_extractRouteNames_pattern, mem_extractRouteNames_pattern]
  constructor
  · rintro ⟨kv, hkv, rest⟩
    exact ⟨kv, h.mem_iff.1 hkv, rest⟩
  · rintro ⟨kv, hkv, rest⟩
    exact ⟨kv, h.mem_iff.2 hkv, rest⟩

/-! ## Routes depend on a label map through its lookups only -/

theorem parseRouteFields_lookup_congr (route : Route) (m m' : LabelMap)
    (h : ∀ k, lookup m k = lookup m' k) : parseRouteFields route m = parseRouteFields route m' := by
  unfold parseRouteFields index getRouteLabel parseBoolFromMap
  simp only [h]

theorem parseRouteLabels_lookup_congr (route : Route) (m m' : LabelMap)
    (h : ∀ k, lookup m k = lookup m' k) : parseRouteLabels route m = parseRouteLabels route m' := by
  unfold parseRouteLabels index getLabel parseBool
  simp only [h]

theorem parseSingleContainerRoute_perm (a b : LabelMap) (hnd : NodupKeys a) (h : a.Perm b)
    (n : GoString) : parseSingleContainerRoute a n = parseSingleContainerRoute b n := by
  have hl := lookup_perm a b hnd h
  unfold parseSingleContainerRoute index getLabel
  simp only [hl]
  exact parseRouteLabels_lookup_congr _ a b hl

theorem parseNamedContainerRoute_perm (a b : LabelMap) (hnd : NodupKeys a) (h : a.Perm b)
    (r n : GoString) : parseNamedContainerRoute a r n = parseNamedContainerRoute b r n := by
  have hl := lookup_perm a b hnd h
  have hr : ∀ k, lookup (extractRouteLabels a (bytes "goma.routes." ++ r ++ bytes ".")) k =
      lookup (extractRouteLabels b (bytes "goma.routes." ++ r ++ bytes ".")) k := by
    intro k
    rw [lookup_extractRouteLabels _ _ _ hnd, lookup_extractRouteLabels _ _ _ (hnd.perm h), hl]
  unfold parseNamedContainerRoute getRouteLabel parseBoolFromMap getLabel
  simp only [hl, hr]
  exact parseRouteFields_lookup_congr _ _ _ hr

theorem parseSingleServiceRoute_perm (a b : LabelMap) (hnd : NodupKeys a) (h : a.Perm b)
    (s s' : Service) (hs : s.EndpointSpec = s'.EndpointSpec) (n : GoString) :
    parseSingleServiceRoute s a n = parseSingleServiceRoute s' b n := by
  have hl := lookup_perm a b hnd h
  unfold parseSingleServiceRoute servicePort index getLabel
  simp only [hl, hs]
  split
  · rfl
  · rw [parseRouteLabels_lookup_congr _ a b hl]

theorem parseNamedServiceRoute_perm (a b : LabelMap) (hnd : NodupKeys a) (h : a.Perm b)
    (s s' : Service) (hs : s.EndpointSpec = s'.EndpointSpec) (r n : GoString) :
    parseNamedServiceRoute s a r n = parseNamedServiceRoute s' b r n := by
  have hl := lookup_perm a b hnd h
  have hr : ∀ k, lookup (extractRouteLabels a (bytes "goma.routes." ++ r ++ bytes ".")) k =
      lookup (extractRouteLabels b (bytes "goma.routes." ++ r ++ bytes ".")) k := by
    intro k
    rw [lookup_extractRouteLabels _ _ _ hnd, lookup_extractRouteLabels _ _ _ (hnd.perm h), hl]
  unfold parseNamedServiceRoute servicePort index getRouteLabel parseBoolFromMap getLabel
  simp only [hl, hr, hs]
  split
  · rfl
  · rw [parseRouteFields_lookup_congr _ _ _ hr]

/-- A container yields the same routes whatever the iteration order of its
label map. -/
theorem parseContainerLabels_sameContainer (a b : Container) (hnd : NodupKeys a.Labels)
    (h : SameContainer a b) : parseContainerLabels a = parseContainerLabels b := by
  obtain ⟨hnames, hperm⟩ := h
  have hl := lookup_perm a.Labels b.Labels hnd hperm
  unfold parseContainerLabels index
  simp only [hl, hnames, extractRouteNames_perm _ _ hperm]
  split
  · rfl
  · split
    · rfl
    · rename_i n hn
      split
      · rw [parseSingleContainerRoute_perm _ _ hnd hperm]
      · rw [foldl_append_map, foldl_append_map]
        simp only [parseNamedContainerRoute_perm _ _ hnd hperm]

/-- A service yields the same routes whatever the iteration order of its label
map. -/
theorem parseServiceLabels_sameService (a b : Service) (hnd : NodupKeys a.Labels)
    (h : SameService a b) : parseServiceLabels a = parseServiceLabels b := by
  obtain ⟨hname, hep, hperm⟩ := h
  have hl := lookup_perm a.Labels b.Labels hnd hperm
  unfold parseServiceLabels index
  simp only [hl, hname, extractRouteNames_perm _ _ hperm]
  split
  · rfl
  · split
    · rw [parseSingleServiceRoute_perm _ _ hnd hperm a b hep]
    · exact namedServiceRoutes_congr a b _ _ _
        (fun r => parseNamedServiceRoute_perm _ _ hnd hperm a b hep r _) _ _
/-! ## The order of a listing -/

theorem containerRoutesLoop_eq (containers : List Container) (routes : List Route) :
    containerRoutesLoop containers routes = collectRoutes parseContainerLabels containers routes := by
  induction containers generalizing routes with
  | nil => rfl
  | cons c rest ih =>
    unfold containerRoutesLoop collectRoutes
    cases parseContainerLabels c with
    | none => rfl
    | some l => exact ih _

theorem serviceRoutesLoop_eq (services : List Service) (routes : List Route) :
    serviceRoutesLoop services routes = collectRoutes parseServiceLabels services routes := by
  induction services generalizing routes with
  | nil => rfl
  | cons c rest ih =>
    unfold serviceRoutesLoop collectRoutes
    cases parseServiceLabels c with
    | none => rfl
    | some l => exact ih _

theorem collectRoutes_eq_none {α : Type} (parse : α → Option (List Route)) (units : List α)
    (routes : List Route) :
    collectRoutes parse units routes = none ↔ ∃ u ∈ units, parse u = none := by
  induction units generalizing routes with
  | nil => simp [collectRoutes]
  | cons u rest ih =>
    unfold collectRoutes
    cases hu : parse u with
    | none => simp [hu]
    | some l =>
      simp only [ih, List.mem_cons, exists_eq_or_imp, hu]
      simp

theorem collectRoutes_eq_some {α : Type} (parse : α → Option (List Route)) (units : List α)
    (routes out : List Route) :
    collectRoutes parse units routes = some out ↔
      ∃ ls, List.Forall₂ (fun u l => parse u = some l) units ls ∧ out = routes ++ ls.flatten := by
  induction units generalizing routes with
  | nil =>
    unfold collectRoutes
    constructor
    · intro h
      exact ⟨[], List.Forall₂.nil, by simpa using (Option.some.inj h).symm⟩
    · rintro ⟨ls, hls, rfl⟩
      cases hls
      simp
  | cons u rest ih =>
    unfold collectRoutes
    cases hu : parse u with
    | none =>
      constructor
      · intro h
        exact absurd h (by simp)
      · rintro ⟨ls, hls, -⟩
        cases hls with
        | cons h _ => rw [hu] at h; exact absurd h (by simp)
    | some l =>
      simp only [ih]
      constructor
      · rintro ⟨ls, hls, rfl⟩
        exact ⟨l :: ls, List.Forall₂.cons hu hls, by simp⟩
      · rintro ⟨ls, hls, rfl⟩
        cases hls with
        | cons h hrest =>
          rw [hu] at h
          cases h
          exact ⟨_, hrest, by simp⟩

/-- Listing the same units in another order, each with another iteration order
of its label map, gives a panic again or the same routes in another order. -/
theorem collectRoutes_sameListing {α : Type} (parse : α → Option (List Route))
    (same : α → α → Prop) (labelsOf : α → LabelMap)
    (hparse : ∀ a b, NodupKeys (labelsOf a) → same a b → parse a = parse b)
    (xs mid ys : List α) (hnd : ∀ x ∈ xs, NodupKeys (labelsOf x))
    (hperm : xs.Perm mid) (hsame : List.Forall₂ same mid ys) :
    (collectRoutes parse xs [] = none → collectRoutes parse ys [] = none) ∧
    (∀ out, collectRoutes parse xs [] = some out →
      ∃ out', collectRoutes parse ys [] = some out' ∧ out'.Perm out) := by
  have hmid : ∀ ls, List.Forall₂ (fun u l => parse u = some l) mid ls →
      List.Forall₂ (fun u l => parse u = some l) ys ls := by
    have hndmid : ∀ x ∈ mid, NodupKeys (labelsOf x) := fun x hx => hnd x (hperm.mem_iff.2 hx)
    clear hperm
    induction hsame with
    | nil => intro ls h; exact h
    | cons hab _ ih =>
      intro ls h
      cases h with
      | cons h1 h2 =>
        refine List.Forall₂.cons ?_ (ih (fun x hx => hndmid x (List.mem_cons_of_mem _ hx)) _ h2)
        rw [← hparse _ _ (hndmid _ (List.mem_cons_self _ _)) hab]
        exact h1
  constructor
  · intro h
    rw [collectRoutes_eq_none] at h ⊢
    obtain ⟨u, hu, hnone⟩ := h
    have humid : u ∈ mid := hperm.mem_iff.1 hu
    have hndmid : ∀ x ∈ mid, NodupKeys (labelsOf x) := fun x hx => hnd x (hperm.mem_iff.2 hx)
    clear hperm hmid
    induction hsame with
    | nil => exact absurd humid (by simp)
    | cons hab _ ih =>
      rcases List.mem_cons.1 humid with h | h
      · subst h
        exact ⟨_, List.mem_cons_self _ _,
          (hparse _ _ (hndmid _ (List.mem_cons_self _ _)) hab) ▸ hnone⟩
      · obtain ⟨v, hv, hvn⟩ := ih h (fun x hx => hndmid x (List.mem_cons_of_mem _ hx))
        exact ⟨v, List.mem_cons_of_mem _ hv, hvn⟩
  · intro out h
    rw [collectRoutes_eq_some] at h
    obtain ⟨ls, hls, rfl⟩ := h
    obtain ⟨w, hw, hwperm⟩ := List.perm_comp_forall₂ hperm.symm hls
    refine ⟨w.flatten, ?_, ?_⟩
    · rw [collectRoutes_eq_some]
      exact ⟨w, hmid w hw, by simp⟩
    · simpa using hwperm.flatten

/-! ## Sorting by name -/

/-- The insertion sort keeps what `sort.Slice` promises. -/
theorem insertionSortByName_sortsByName : SortsByName insertionSortByName := by
  intro routes
  haveI : IsTotal Route (fun a b => a.Name ≤ b.Name) := ⟨fun a b => le_total a.Name b.Name⟩
  haveI : IsTrans Route (fun a b => a.Name ≤ b.Name) :=
    ⟨fun a b c hab hbc => le_trans hab hbc⟩
  exact ⟨List.perm_insertionSort _ routes, List.sorted_insertionSort _ routes⟩

theorem sortSlice_perm (pdqsort : List Route → List Route) (hsort : SortsByName pdqsort)
    (routes : List Route) : (sortSlice pdqsort routes).Perm routes := by
  unfold sortSlice
  split
  · exact (insertionSortByName_sortsByName routes).1
  · exact (hsort routes).1

theorem sortSlice_sorted_le (pdqsort : List Route → List Route) (hsort : SortsByName pdqsort)
    (routes : List Route) :
    (sortSlice pdqsort routes).Sorted (fun a b => a.Name ≤ b.Name) := by
  unfold sortSlice
  split
  · exact (insertionSortByName_sortsByName routes).2
  · exact (hsort routes).2

theorem sorted_lt_of_nodup_names (l : List Route)
    (hs : l.Sorted (fun a b => a.Name ≤ b.Name)) (hn : (l.map Route.Name).Nodup) :
    l.Sorted (fun a b => a.Name < b.Name) := by
  have hne : l.Pairwise (fun a b => a.Name ≠ b.Name) := by
    unfold List.Nodup at hn
    exact List.pairwise_map.1 hn
  exact (List.Pairwise.and hs hne).imp (fun h => lt_of_le_of_ne h.1 h.2)

/-- Routes of pairwise distinct names have one arrangement sorted by name. -/
theorem sorted_by_name_unique (l l' : List Route) (hperm : l'.Perm l)
    (hn : (l.map Route.Name).Nodup)
    (hs : l.Sorted (fun a b => a.Name ≤ b.Name)) (hs' : l'.Sorted (fun a b => a.Name ≤ b.Name)) :
    l' = l := by
  haveI : IsAntisymm Route (fun a b => a.Name < b.Name) :=
    ⟨fun a b hab hba => absurd hab (lt_asymm hba)⟩
  have hn' : (l'.map Route.Name).Nodup := ((hperm.map Route.Name).nodup_iff).2 hn
  exact List.eq_of_perm_of_sorted hperm (sorted_lt_of_nodup_names l' hs' hn')
    (sorted_lt_of_nodup_names l hs hn)

theorem sortSlice_eq_of_perm (pdqsort : List Route → List Route) (hsort : SortsByName pdqsort)
    (l l' : List Route) (hperm : l'.Perm l)
    (hn : ((sortSlice pdqsort l).map Route.Name).Nodup) :
    sortSlice pdqsort l' = sortSlice pdqsort l :=
  sorted_by_name_unique _ _
    (((sortSlice_perm pdqsort hsort l').trans hperm).trans (sortSlice_perm pdqsort hsort l).symm)
    hn (sortSlice_sorted_le pdqsort hsort l) (sortSlice_sorted_le pdqsort hsort l')

theorem assembleConfiguration_ok (pdqsort : List Route → List Route) (p : Provider)
    (rt : Runtime) (resolved : List Route) (h : sourceRoutes p rt = some (.ok resolved)) :
    assembleConfiguration pdqsort p rt = some (.ok { Routes := sortSlice pdqsort resolved }) := by
  unfold assembleConfiguration
  rw [h]
  rfl

/-- C14 (ordering).  When the active source resolves routes of pairwise
distinct names, the Routes sequence assembled by `syncConfiguration` is a
permutation of the resolved routes, none dropped, merged or duplicated, and is
strictly ascending by Name in the bytewise order; it is the only such
arrangement.  This holds whatever the library sort of `sort.Slice` does on
long slices, as long as it sorts (`SortsByName`). -/
theorem routes_sorted_by_name (pdqsort : List Route → List Route) (p : Provider)
    (rt : Runtime) (resolved : List Route)
    (hsort : SortsByName pdqsort)
    (hres : sourceRoutes p rt = some (.ok resolved))
    (hdistinct : (resolved.map Route.Name).Nodup) :
    ∃ config, assembleConfiguration pdqsort p rt = some (.ok config) ∧
      config.Routes.Perm resolved ∧
      config.Routes.Sorted (fun a b => a.Name < b.Name) ∧
      ∀ l, l.Perm resolved → l.Sorted (fun a b => a.Name ≤ b.Name) → l = config.Routes := by
  have hn : ((sortSlice pdqsort resolved).map Route.Name).Nodup :=
    (((sortSlice_perm pdqsort hsort resolved).map Route.Name).nodup_iff).2 hdistinct
  refine ⟨_, assembleConfiguration_ok pdqsort p rt resolved hres,
    sortSlice_perm pdqsort hsort resolved,
    sorted_lt_of_nodup_names _ (sortSlice_sorted_le pdqsort hsort resolved) hn, ?_⟩
  intro l hl hs
  exact sorted_by_name_unique _ _ (hl.trans (sortSlice_perm pdqsort hsort resolved).symm) hn
    (sortSlice_sorted_le pdqsort hsort resolved) hs
/-- Witness for C14: the containers `b` and `a`, listed in this order, are
assembled as the routes `a`, `b`. -/
theorem routes_sorted_by_name_witness :
    ∃ config,
      assembleConfiguration insertionSortByName
          { config := { EnableSwarm := false }, lastHash := [], isSwarmMode := false }
          { ContainerList := .ok
              [{ Names := [bytes "/b"], Labels := [(bytes "goma.enable", bytes "true")] },
                { Names := [bytes "/a"], Labels := [(bytes "goma.enable", bytes "true")] }],
            ServiceList := .ok [], writeError := none } = some (.ok config) ∧
      config.Routes.map Route.Name = [bytes "a", bytes "b"] := by
  obtain ⟨config, h1, -, -, h4⟩ := routes_sorted_by_name insertionSortByName
    { config := { EnableSwarm := false }, lastHash := [], isSwarmMode := false }
    { ContainerList := .ok
        [{ Names := [bytes "/b"], Labels := [(bytes "goma.enable", bytes "true")] },
          { Names := [bytes "/a"], Labels := [(bytes "goma.enable", bytes "true")] }],
      ServiceList := .ok [], writeError := none }
    [parseSingleContainerRoute [(bytes "goma.enable", bytes "true")] (bytes "b"),
      parseSingleContainerRoute [(bytes "goma.enable", bytes "true")] (bytes "a")]
    insertionSortByName_sortsByName (by decide) (by decide)
  refine ⟨config, h1, ?_⟩
  rw [← h4 [parseSingleContainerRoute [(bytes "goma.enable", bytes "true")] (bytes "a"),
    parseSingleContainerRoute [(bytes "goma.enable", bytes "true")] (bytes "b")]
    (List.Perm.swap _ _ _) (by decide)]
  decide

/-! ## Determinism of a pass -/

theorem sourceRoutes_sameListing (p : Provider) (rt rt' : Runtime)
    (hc : SameListing SameContainer rt.ContainerList rt'.ContainerList)
    (hs : SameListing SameService rt.ServiceList rt'.ServiceList)
    (hndc : NodupListing Container.Labels rt.ContainerList)
    (hnds : NodupListing Service.Labels rt.ServiceList) :
    (sourceRoutes p rt = none → sourceRoutes p rt' = none) ∧
    (∀ err, sourceRoutes p rt = some (.error err) → sourceRoutes p rt' = some (.error err)) ∧
    (∀ out, sourceRoutes p rt = some (.ok out) →
      ∃ out', sourceRoutes p rt' = some (.ok out') ∧ out'.Perm out) := by
  unfold sourceRoutes
  split
  · unfold getSwarmRoutes
    unfold SameListing at hs
    unfold NodupListing at hnds
    cases h1 : rt.ServiceList with
    | error e =>
      cases h2 : rt'.ServiceList with
      | error e' =>
        rw [h1, h2] at hs
        simp only [] at hs
        subst hs
        simp
      | ok ys => rw [h1, h2] at hs; exact absurd hs (by simp)
    | ok xs =>
      cases h2 : rt'.ServiceList with
      | error e' => rw [h1, h2] at hs; exact absurd hs (by simp)
      | ok ys =>
        rw [h1, h2] at hs
        rw [h1] at hnds
        obtain ⟨mid, hperm, hsame⟩ := hs
        obtain ⟨hn, hsome⟩ := collectRoutes_sameListing parseServiceLabels SameService
          Service.Labels parseServiceLabels_sameService xs mid ys hnds hperm hsame
        simp only [serviceRoutesLoop_eq]
        refine ⟨?_, ?_, ?_⟩
        · intro h
          cases hx : collectRoutes parseServiceLabels xs [] with
          | none => rw [hn hx]
          | some out => rw [hx] at h; exact absurd h (by simp)
        · intro err h
          cases hx : collectRoutes parseServiceLabels xs [] with
          | none => rw [hx] at h; exact absurd h (by simp)
          | some out => rw [hx] at h; exact absurd h (by simp)
        · intro out h
          cases hx : collectRoutes parseServiceLabels xs [] with
          | none => rw [hx] at h; exact absurd h (by simp)
          | some o =>
            rw [hx] at h
            have ho : o = out := by simpa using h
            subst ho
            obtain ⟨out', h1', h2'⟩ := hsome o hx
            exact ⟨out', by rw [h1'], h2'⟩
  · unfold getContainerRoutes
    unfold SameListing at hc
    unfold NodupListing at hndc
    cases h1 : rt.ContainerList with
    | error e =>
      cases h2 : rt'.ContainerList with
      | error e' =>
        rw [h1, h2] at hc
        simp only [] at hc
        subst hc
        simp
      | ok ys => rw [h1, h2] at hc; exact absurd hc (by simp)
    | ok xs =>
      cases h2 : rt'.ContainerList with
      | error e' => rw [h1, h2] at hc; exact absurd hc (by simp)
      | ok ys =>
        rw [h1, h2] at hc
        rw [h1] at hndc
        obtain ⟨mid, hperm, hsame⟩ := hc
        obtain ⟨hn, hsome⟩ := collectRoutes_sameListing parseContainerLabels SameContainer
          Container.Labels parseContainerLabels_sameContainer xs mid ys hndc hperm hsame
        simp only [containerRoutesLoop_eq]
        refine ⟨?_, ?_, ?_⟩
        · intro h
          cases hx : collectRoutes parseContainerLabels xs [] with
          | none => rw [hn hx]
          | some out => rw [hx] at h; exact absurd h (by simp)
        · intro err h
          cases hx : collectRoutes parseContainerLabels xs [] with
          | none => rw [hx] at h; exact absurd h (by simp)
          | some out => rw [hx] at h; exact absurd h (by simp)
        · intro out h
          cases hx : collectRoutes parseContainerLabels xs [] with
          | none => rw [hx] at h; exact absurd h (by simp)
          | some o =>
            rw [hx] at h
            have ho : o = out := by simpa using h
            subst ho
            obtain ⟨out', h1', h2'⟩ := hsome o hx
            exact ⟨out', by rw [h1'], h2'⟩

/-- C15 as amended (determinism).  Two answers of the runtime that describe
the same discovered state, listed in another order and with another iteration
order of each label map, are assembled to the same configuration, and the pass
has the same outcome (returned error, stored fingerprint, configuration
written), provided that the assembled routes have pairwise distinct names.
This holds whatever the library sort of `sort.Slice` does on long slices, as
long as it sorts (`SortsByName`). -/
theorem assembly_deterministic (pdqsort : List Route → List Route)
    (sum256 : GomaConfig → List Byte) (p : Provider) (rt rt' : Runtime)
    (hsort : SortsByName pdqsort)
    (hc : SameListing SameContainer rt.ContainerList rt'.ContainerList)
    (hs : SameListing SameService rt.ServiceList rt'.ServiceList)
    (hndc : NodupListing Container.Labels rt.ContainerList)
    (hnds : NodupListing Service.Labels rt.ServiceList)
    (hw : rt'.writeError = rt.writeError)
    (hdistinct : ∀ config, assembleConfiguration pdqsort p rt = some (.ok config) →
      (config.Routes.map Route.Name).Nodup) :
    assembleConfiguration pdqsort p rt' = assembleConfiguration pdqsort p rt ∧
    syncConfiguration pdqsort sum256 p rt' = syncConfiguration pdqsort sum256 p rt := by
  have hassemble : assembleConfiguration pdqsort p rt' = assembleConfiguration pdqsort p rt := by
    obtain ⟨h1, h2, h3⟩ := sourceRoutes_sameListing p rt rt' hc hs hndc hnds
    cases hsrc : sourceRoutes p rt with
    | none =>
      unfold assembleConfiguration
      rw [hsrc, h1 hsrc]
    | some res =>
      cases res with
      | error err =>
        unfold assembleConfiguration
        rw [hsrc, h2 err hsrc]
      | ok out =>
        obtain ⟨out', ho, hperm⟩ := h3 out hsrc
        have hd := hdistinct _ (assembleConfiguration_ok pdqsort p rt out hsrc)
        rw [assembleConfiguration_ok pdqsort p rt out hsrc,
          assembleConfiguration_ok pdqsort p rt' out' ho,
          sortSlice_eq_of_perm pdqsort hsort out out' hperm hd]
  refine ⟨hassemble, ?_⟩
  unfold syncConfiguration writeConfiguration
  rw [hassemble, hw]
/-- Witness for C15 as amended: the containers `a` and `b`, listed as `a`, `b`
and as `b`, `a` with the labels of `a` in another order. -/
theorem assembly_deterministic_witness :
    assembleConfiguration insertionSortByName
        { config := { EnableSwarm := false }, lastHash := [], isSwarmMode := false }
        { ContainerList := .ok
            [{ Names := [bytes "/b"], Labels := [(bytes "goma.enable", bytes "true")] },
              { Names := [bytes "/a"],
                Labels := [(bytes "goma.path", bytes "/x"),
                  (bytes "goma.enable", bytes "true")] }],
          ServiceList := .ok [], writeError := none } =
      assembleConfiguration insertionSortByName
        { config := { EnableSwarm := false }, lastHash := [], isSwarmMode := false }
        { ContainerList := .ok
            [{ Names := [bytes "/a"],
               Labels := [(bytes "goma.enable", bytes "true"),
                 (bytes "goma.path", bytes "/x")] },
              { Names := [bytes "/b"], Labels := [(bytes "goma.enable", bytes "true")] }],
          ServiceList := .ok [], writeError := none } ∧
    syncConfiguration insertionSortByName
        (fun config => List.replicate 32 (Fin.ofNat config.Routes.length))
        { config := { EnableSwarm := false }, lastHash := [], isSwarmMode := false }
        { ContainerList := .ok
            [{ Names := [bytes "/b"], Labels := [(bytes "goma.enable", bytes "true")] },
              { Names := [bytes "/a"],
                Labels := [(bytes "goma.path", bytes "/x"),
                  (bytes "goma.enable", bytes "true")] }],
          ServiceList := .ok [], writeError := none } =
      syncConfiguration insertionSortByName
        (fun config => List.replicate 32 (Fin.ofNat config.Routes.length))
        { config := { EnableSwarm := false }, lastHash := [], isSwarmMode := false }
        { ContainerList := .ok
            [{ Names := [bytes "/a"],
               Labels := [(bytes "goma.enable", bytes "true"),
                 (bytes "goma.path", bytes "/x")] },
              { Names := [bytes "/b"], Labels := [(bytes "goma.enable", bytes "true")] }],
          ServiceList := .ok [], writeError := none } := by
  apply assembly_deterministic
  · exact insertionSortByName_sortsByName
  · exact ⟨[{ Names := [bytes "/b"], Labels := [(bytes "goma.enable", bytes "true")] },
        { Names := [bytes "/a"],
          Labels := [(bytes "goma.enable", bytes "true"), (bytes "goma.path", bytes "/x")] }],
      List.Perm.swap _ _ _,
      List.Forall₂.cons ⟨rfl, List.Perm.refl _⟩
        (List.Forall₂.cons ⟨rfl, List.Perm.swap _ _ _⟩ List.Forall₂.nil)⟩
  · exact ⟨[], List.Perm.nil, List.Forall₂.nil⟩
  · unfold NodupListing NodupKeys
    decide
  · unfold NodupListing
    simp
  · rfl
  · intro config h
    have hc : assembleConfiguration insertionSortByName
        { config := { EnableSwarm := false }, lastHash := [], isSwarmMode := false }
        { ContainerList := .ok
            [{ Names := [bytes "/a"],
               Labels := [(bytes "goma.enable", bytes "true"),
                 (bytes "goma.path", bytes "/x")] },
              { Names := [bytes "/b"], Labels := [(bytes "goma.enable", bytes "true")] }],
          ServiceList := .ok [], writeError := none } =
        some (.ok { Routes :=
          [parseSingleContainerRoute
              [(bytes "goma.enable", bytes "true"), (bytes "goma.path", bytes "/x")] (bytes "a"),
            parseSingleContainerRoute [(bytes "goma.enable", bytes "true")] (bytes "b")] }) := by
      decide
    rw [hc] at h
    have hcfg := Except.ok.inj (Option.some.inj h)
    subst hcfg
    decide

/-- Counterexample to C15 as stated: two containers `a` and `b` that both
carry `goma.name=x`.  Listed as `a`, `b` the routes are assembled with the one
to `a` first, listed as `b`, `a` with the one to `b` first: the two listings
are permutations of each other and are assembled to different sequences.  Two
routes are sorted by insertion, so the library sort for long slices plays no
part. -/
theorem assembly_depends_on_listing_order :
    SameListing SameContainer
      (.ok [{ Names := [bytes "/a"],
              Labels := [(bytes "goma.enable", bytes "true"), (bytes "goma.name", bytes "x")] },
            { Names := [bytes "/b"],
              Labels := [(bytes "goma.enable", bytes "true"), (bytes "goma.name", bytes "x")] }])
      (.ok [{ Names := [bytes "/b"],
              Labels := [(bytes "goma.enable", bytes "true"), (bytes "goma.name", bytes "x")] },
            { Names := [bytes "/a"],
              Labels := [(bytes "goma.enable", bytes "true"),
                (bytes "goma.name", bytes "x")] }]) ∧
    (assembleConfiguration insertionSortByName
        { config := { EnableSwarm := false }, lastHash := [], isSwarmMode := false }
        { ContainerList := .ok
            [{ Names := [bytes "/a"],
               Labels := [(bytes "goma.enable", bytes "true"), (bytes "goma.name", bytes "x")] },
              { Names := [bytes "/b"],
                Labels := [(bytes "goma.enable", bytes "true"),
                  (bytes "goma.name", bytes "x")] }],
          ServiceList := .ok [], writeError := none }).map
        (Except.map (fun config => config.Routes.map (fun r => (r.Name, r.Target)))) =
      some (.ok [(bytes "x", bytes "http://a:80"), (bytes "x", bytes "http://b:80")]) ∧
    (assembleConfiguration insertionSortByName
        { config := { EnableSwarm := false }, lastHash := [], isSwarmMode := false }
        { ContainerList := .ok
            [{ Names := [bytes "/b"],
               Labels := [(bytes "goma.enable", bytes "true"), (bytes "goma.name", bytes "x")] },
              { Names := [bytes "/a"],
                Labels := [(bytes "goma.enable", bytes "true"),
                  (bytes "goma.name", bytes "x")] }],
          ServiceList := .ok [], writeError := none }).map
        (Except.map (fun config => config.Routes.map (fun r => (r.Name, r.Target)))) =
      some (.ok [(bytes "x", bytes "http://b:80"), (bytes "x", bytes "http://a:80")]) :=
  ⟨⟨_, List.Perm.swap _ _ _,
      List.Forall₂.cons ⟨rfl, List.Perm.refl _⟩
        (List.Forall₂.cons ⟨rfl, List.Perm.refl _⟩ List.Forall₂.nil)⟩,
    by decide, by decide⟩
/-! ## The stored fingerprint -/

theorem hexEncodeToString_length (src : List Byte) :
    (hexEncodeToString src).length = 2 * src.length := by
  induction src with
  | nil => rfl
  | cons b rest ih =>
    unfold hexEncodeToString at ih ⊢
    simp only [List.flatMap_cons, List.length_append, List.length_cons, List.length_nil, ih]
    omega

theorem calculateHash_ne_nil (sum256 : GomaConfig → List Byte)
    (hsum : ∀ config, (sum256 config).length = 32) (config : GomaConfig) :
    calculateHash sum256 config ≠ [] := by
  intro h
  have hl := hexEncodeToString_length (sum256 config)
  unfold calculateHash at h
  rw [h, hsum config] at hl
  simp at hl

theorem assembleConfiguration_lastHash (pdqsort : List Route → List Route) (p : Provider)
    (rt : Runtime) (hash : GoString) :
    assembleConfiguration pdqsort { p with lastHash := hash } rt =
      assembleConfiguration pdqsort p rt :=
  rfl

theorem syncConfiguration_unchanged (pdqsort : List Route → List Route)
    (sum256 : GomaConfig → List Byte) (p : Provider)
    (rt : Runtime) (config : GomaConfig)
    (hok : assembleConfiguration pdqsort p rt = some (.ok config))
    (hsame : calculateHash sum256 config = p.lastHash) :
    syncConfiguration pdqsort sum256 p rt = some { err := none, provider := p, writes := [] } := by
  unfold syncConfiguration
  rw [hok]
  simp only [hsame, if_true]

theorem syncConfiguration_changed (pdqsort : List Route → List Route)
    (sum256 : GomaConfig → List Byte) (p : Provider)
    (rt : Runtime) (config : GomaConfig)
    (hok : assembleConfiguration pdqsort p rt = some (.ok config))
    (hne : calculateHash sum256 config ≠ p.lastHash) :
    syncConfiguration pdqsort sum256 p rt =
      match rt.writeError with
      | some err => some { err := some err, provider := p, writes := [config] }
      | none =>
        some { err := none, provider := { p with lastHash := calculateHash sum256 config },
               writes := [config] } := by
  unfold syncConfiguration writeConfiguration
  rw [hok]
  simp only [hne, if_false]

theorem syncConfiguration_error (pdqsort : List Route → List Route)
    (sum256 : GomaConfig → List Byte) (p : Provider)
    (rt : Runtime) (err : GoError) (h : assembleConfiguration pdqsort p rt = some (.error err)) :
    syncConfiguration pdqsort sum256 p rt = some { err := some err, provider := p, writes := [] } := by
  unfold syncConfiguration
  rw [h]

theorem syncConfiguration_panic (pdqsort : List Route → List Route)
    (sum256 : GomaConfig → List Byte) (p : Provider)
    (rt : Runtime) (h : assembleConfiguration pdqsort p rt = none) :
    syncConfiguration pdqsort sum256 p rt = none := by
  unfold syncConfiguration
  rw [h]

/-- The outcomes of a pass: the provider is left as it was, or the pass
returned no error after a write without error and stored the fingerprint of
the configuration written. -/
theorem syncConfiguration_cases (pdqsort : List Route → List Route)
    (sum256 : GomaConfig → List Byte) (p : Provider)
    (rt : Runtime) (pass : Pass) (h : syncConfiguration pdqsort sum256 p rt = some pass) :
    (pass.provider = p ∨
      (pass.err = none ∧ rt.writeError = none ∧
        ∃ config, pass.writes = [config] ∧
          pass.provider.lastHash = calculateHash sum256 config)) ∧
    (pass.err ≠ none → pass.provider = p) := by
  cases hasm : assembleConfiguration pdqsort p rt with
  | none =>
    rw [syncConfiguration_panic pdqsort sum256 p rt hasm] at h
    exact absurd h (by simp)
  | some res =>
    cases res with
    | error err =>
      rw [syncConfiguration_error pdqsort sum256 p rt err hasm] at h
      have := Option.some.inj h
      subst this
      exact ⟨Or.inl rfl, fun _ => rfl⟩
    | ok config =>
      by_cases hhash : calculateHash sum256 config = p.lastHash
      · rw [syncConfiguration_unchanged pdqsort sum256 p rt config hasm hhash] at h
        have := Option.some.inj h
        subst this
        exact ⟨Or.inl rfl, fun _ => rfl⟩
      · rw [syncConfiguration_changed pdqsort sum256 p rt config hasm hhash] at h
        cases hw : rt.writeError with
        | some e =>
          rw [hw] at h
          have := Option.some.inj h
          subst this
          exact ⟨Or.inl rfl, fun _ => rfl⟩
        | none =>
          rw [hw] at h
          have := Option.some.inj h
          subst this
          exact ⟨Or.inr ⟨rfl, rfl, config, rfl, rfl⟩, fun hne => absurd rfl hne⟩

/-- C17 (idempotent write).  Starting from a provider whose stored fingerprint
is empty, a successful pass writes the configuration and stores its
fingerprint, and a following pass over the same discovered state computes the
same fingerprint, writes nothing and leaves the stored fingerprint unchanged:
one write in total.  More generally a pass whose computed fingerprint equals
the stored one writes nothing. -/
theorem idempotent_write (pdqsort : List Route → List Route)
    (sum256 : GomaConfig → List Byte) (p : Provider) (rt rt' : Runtime)
    (config : GomaConfig)
    (hsum : ∀ c, (sum256 c).length = 32)
    (hfresh : p.lastHash = [])
    (hok : assembleConfiguration pdqsort p rt = some (.ok config))
    (hwrite : rt.writeError = none)
    (hok' : assembleConfiguration pdqsort p rt' = some (.ok config)) :
    (∃ first second,
      syncConfiguration pdqsort sum256 p rt = some first ∧
      syncConfiguration pdqsort sum256 first.provider rt' = some second ∧
      first.err = none ∧ first.writes = [config] ∧
      first.provider.lastHash = calculateHash sum256 config ∧
      second.err = none ∧ second.writes = [] ∧ second.provider = first.provider ∧
      (first.writes ++ second.writes).length = 1) ∧
    (∀ (q : Provider) (rt2 : Runtime) (c2 : GomaConfig),
      assembleConfiguration pdqsort q rt2 = some (.ok c2) → calculateHash sum256 c2 = q.lastHash →
      syncConfiguration pdqsort sum256 q rt2 = some { err := none, provider := q, writes := [] }) := by
  refine ⟨?_, fun q rt2 c2 h1 h2 => syncConfiguration_unchanged pdqsort sum256 q rt2 c2 h1 h2⟩
  have hne : calculateHash sum256 config ≠ p.lastHash := by
    rw [hfresh]
    exact calculateHash_ne_nil sum256 hsum config
  have h1 := syncConfiguration_changed pdqsort sum256 p rt config hok hne
  rw [hwrite] at h1
  simp only [] at h1
  have h2 := syncConfiguration_unchanged pdqsort sum256
    { p with lastHash := calculateHash sum256 config } rt' config
    ((assembleConfiguration_lastHash pdqsort p rt' _).trans hok') rfl
  exact ⟨_, _, h1, h2, rfl, rfl, rfl, rfl, rfl, rfl, rfl⟩

/-- Witness for C17: two passes over one container, with a stand-in digest of
32 bytes. -/
theorem idempotent_write_witness :
    ∃ first second,
      syncConfiguration insertionSortByName
        (fun config => List.replicate 32 (Fin.ofNat config.Routes.length))
          { config := { EnableSwarm := false }, lastHash := [], isSwarmMode := false }
          { ContainerList := .ok
              [{ Names := [bytes "/a"], Labels := [(bytes "goma.enable", bytes "true")] }],
            ServiceList := .ok [], writeError := none } = some first ∧
      syncConfiguration insertionSortByName
        (fun config => List.replicate 32 (Fin.ofNat config.Routes.length))
          first.provider
          { ContainerList := .ok
              [{ Names := [bytes "/a"], Labels := [(bytes "goma.enable", bytes "true")] }],
            ServiceList := .ok [], writeError := none } = some second ∧
      first.err = none ∧ second.err = none ∧
      (first.writes ++ second.writes).length = 1 ∧
      second.provider.lastHash = first.provider.lastHash := by
  obtain ⟨⟨first, second, h1, h2, h3, -, -, h6, -, h8, h9⟩, -⟩ := idempotent_write insertionSortByName
    (fun config => List.replicate 32 (Fin.ofNat config.Routes.length))
    { config := { EnableSwarm := false }, lastHash := [], isSwarmMode := false }
    { ContainerList := .ok
        [{ Names := [bytes "/a"], Labels := [(bytes "goma.enable", bytes "true")] }],
      ServiceList := .ok [], writeError := none }
    { ContainerList := .ok
        [{ Names := [bytes "/a"], Labels := [(bytes "goma.enable", bytes "true")] }],
      ServiceList := .ok [], writeError := none }
    { Routes := [parseSingleContainerRoute [(bytes "goma.enable", bytes "true")] (bytes "a")] }
    (fun c => List.length_replicate _ _) rfl (by decide) rfl (by decide)
  exact ⟨first, second, h1, h2, h3, h6, h9, by rw [h8]⟩

/-- C18 (fingerprint atomicity on failure).  A pass whose listing call fails
returns that error, attempts no write and leaves the provider as it was; a
pass whose write fails returns that error and leaves the provider as it was,
so that a next pass over the same content attempts the write again; whenever a
pass returns an error the stored fingerprint is unchanged, and whenever the
stored fingerprint changes the pass has written without error. -/
theorem fingerprint_kept_on_failure (pdqsort : List Route → List Route)
    (sum256 : GomaConfig → List Byte) (p : Provider)
    (rt : Runtime) :
    (∀ e, (p.config.EnableSwarm && p.isSwarmMode) = false → rt.ContainerList = .error e →
      syncConfiguration pdqsort sum256 p rt =
        some { err := some (bytes "failed to list containers: " ++ e), provider := p,
               writes := [] }) ∧
    (∀ e, (p.config.EnableSwarm && p.isSwarmMode) = true → rt.ServiceList = .error e →
      syncConfiguration pdqsort sum256 p rt =
        some { err := some (bytes "failed to list services: " ++ e), provider := p,
               writes := [] }) ∧
    (∀ config e, assembleConfiguration pdqsort p rt = some (.ok config) →
      calculateHash sum256 config ≠ p.lastHash → rt.writeError = some e →
      syncConfiguration pdqsort sum256 p rt = some { err := some e, provider := p, writes := [config] } ∧
      ∀ rt2, assembleConfiguration pdqsort p rt2 = some (.ok config) →
        ∃ next, syncConfiguration pdqsort sum256 p rt2 = some next ∧ next.writes = [config]) ∧
    (∀ pass, syncConfiguration pdqsort sum256 p rt = some pass → pass.err ≠ none →
      pass.provider = p) ∧
    (∀ pass, syncConfiguration pdqsort sum256 p rt = some pass →
      pass.provider.lastHash ≠ p.lastHash →
      pass.err = none ∧ rt.writeError = none ∧
      ∃ config, pass.writes = [config] ∧
        pass.provider.lastHash = calculateHash sum256 config) := by
  refine ⟨?_, ?_, ?_, ?_, ?_⟩
  · intro e hp he
    unfold syncConfiguration assembleConfiguration sourceRoutes getContainerRoutes
    simp [hp, he]
  · intro e hp he
    unfold syncConfiguration assembleConfiguration sourceRoutes getSwarmRoutes
    simp [hp, he]
  · intro config e hok hne hw
    have h1 := syncConfiguration_changed pdqsort sum256 p rt config hok hne
    rw [hw] at h1
    refine ⟨h1, fun rt2 hok2 => ?_⟩
    have h2 := syncConfiguration_changed pdqsort sum256 p rt2 config hok2 hne
    cases hw2 : rt2.writeError with
    | none => rw [hw2] at h2; exact ⟨_, h2, rfl⟩
    | some e2 => rw [hw2] at h2; exact ⟨_, h2, rfl⟩
  · intro pass h herr
    obtain ⟨hprov, -⟩ := syncConfiguration_cases pdqsort sum256 p rt pass h
    rcases hprov with hprov | ⟨hnone, -⟩
    · exact hprov
    · exact absurd hnone herr
  · intro pass h hchg
    obtain ⟨hprov, hrest⟩ := syncConfiguration_cases pdqsort sum256 p rt pass h
    rcases hprov with hprov | ⟨hnone, hw, config, hwrites, hhash⟩
    · rw [hprov] at hchg
      exact absurd rfl hchg
    · exact ⟨hnone, hw, config, hwrites, hhash⟩
/-! ## Containers and services -/

theorem servicePort_no_ports (service : Service) (port : GoString)
    (h : service.EndpointSpec = some []) :
    servicePort service port = some (if port = [] then bytes "80" else port) := by
  rw [servicePort_of_endpointSpec service [] port h]
  rfl

theorem parseSingleServiceRoute_no_ports (service : Service) (labels : LabelMap)
    (n : GoString) (h : service.EndpointSpec = some []) :
    parseSingleServiceRoute service labels n = some (parseSingleContainerRoute labels n) := by
  unfold parseSingleServiceRoute parseSingleContainerRoute
  simp only [servicePort_no_ports service _ h, index_eq_labelOr, getLabel_eq_labelOr]
  have hport : (if labelOr (lookup labels (bytes "goma.port")) [] = [] then bytes "80"
      else labelOr (lookup labels (bytes "goma.port")) []) =
      labelOr (lookup labels (bytes "goma.port")) (bytes "80") := by
    unfold labelOr
    cases lookup labels (bytes "goma.port") with
    | none => simp
    | some v => by_cases hv : v = [] <;> simp [hv]
  rw [hport]

theorem parseNamedServiceRoute_no_ports (service : Service) (labels : LabelMap)
    (r n : GoString) (h : service.EndpointSpec = some []) :
    parseNamedServiceRoute service labels r n = some (parseNamedContainerRoute labels r n) := by
  unfold parseNamedServiceRoute parseNamedContainerRoute
  simp only [servicePort_no_ports service _ h, index_eq_labelOr, getRouteLabel_eq_labelOr]
  have hport : ∀ m : LabelMap,
      (if labelOr (lookup m (bytes "port")) [] = [] then bytes "80"
        else labelOr (lookup m (bytes "port")) []) =
      labelOr (lookup m (bytes "port")) (bytes "80") := by
    intro m
    unfold labelOr
    cases lookup m (bytes "port") with
    | none => simp
    | some v => by_cases hv : v = [] <;> simp [hv]
  rw [hport]

theorem namedServiceRoutes_of_some (service : Service) (labels : LabelMap) (n : GoString)
    (f : GoString → Route)
    (h : ∀ r, parseNamedServiceRoute service labels r n = some (f r))
    (routeNames : List GoString) (routes : List Route) :
    namedServiceRoutes service labels n routeNames routes = some (routes ++ routeNames.map f) := by
  induction routeNames generalizing routes with
  | nil => simp [namedServiceRoutes]
  | cons r rest ih =>
    unfold namedServiceRoutes
    rw [h r]
    simp only [ih, List.map_cons, List.append_assoc, List.singleton_append]

theorem firstNameTail_slash (s : GoString) (rest : List GoString) :
    firstNameTail ((bytes "/" ++ s) :: rest) = some s :=
  rfl

/-- C21 (the two runtime sources normalize to the same output).  For every
label map and identity `n`, `parseServiceLabels` on the service named `n` with
an empty list of declared endpoint ports returns the route list that
`parseContainerLabels` returns on a container whose first reported name is `/`
followed by `n`, with the same labels, in single mode and in named mode. -/
theorem service_and_container_agree (labels : LabelMap) (n : GoString)
    (otherNames : List GoString) :
    parseServiceLabels { Name := n, Labels := labels, EndpointSpec := some [] } =
      parseContainerLabels { Names := (bytes "/" ++ n) :: otherNames, Labels := labels } := by
  unfold parseServiceLabels parseContainerLabels
  simp only [firstNameTail_slash]
  split
  · rfl
  · split
    · rw [parseSingleServiceRoute_no_ports _ _ _ rfl]
    · rw [namedServiceRoutes_of_some _ labels n (fun r => parseNamedContainerRoute labels r n)
        (fun r => parseNamedServiceRoute_no_ports _ labels r n rfl), foldl_append_map]
/-! ## Independence of named routes -/

theorem takeWhile_not_dot (a t : GoString) (ha : dot ∉ a) :
    (a ++ dot :: t).takeWhile (fun x => decide (x ≠ dot)) = a := by
  have hall : ∀ x ∈ a, decide (x ≠ dot) = true := by
    intro x hx
    simp only [decide_eq_true_eq]
    rintro rfl
    exact ha hx
  rw [List.takeWhile_append_of_pos hall]
  simp

/-- A key of the route `b` is not under the namespace of another route `a`. -/
theorem not_hasPrefix_other_route (a b field : GoString) (ha : dot ∉ a) (hb : dot ∉ b)
    (hab : a ≠ b) :
    hasPrefix (bytes "goma.routes." ++ b ++ bytes "." ++ field)
      (bytes "goma.routes." ++ a ++ bytes ".") = false := by
  have hdot : bytes "." = [dot] := by decide
  cases hp : hasPrefix (bytes "goma.routes." ++ b ++ bytes "." ++ field)
      (bytes "goma.routes." ++ a ++ bytes ".") with
  | false => rfl
  | true =>
    obtain ⟨t, ht⟩ := (hasPrefix_iff _ _).1 hp
    rw [hdot] at ht
    simp only [List.append_assoc, List.append_cancel_left_eq, List.singleton_append] at ht
    have h1 := takeWhile_not_dot b field hb
    rw [ht, takeWhile_not_dot a t ha] at h1
    exact absurd h1 hab

theorem extractRouteLabels_agreeOff_of_not_hasPrefix (key pfx : GoString)
    (hkey : hasPrefix key pfx = false) (a b : LabelMap) (h : AgreeOff key a b) :
    extractRouteLabels a pfx = extractRouteLabels b pfx := by
  unfold extractRouteLabels
  apply foldl_agreeOff _ key _ a b h
  intro acc v
  simp only [hkey, if_false, Bool.false_eq_true]

theorem mem_agreeOff (key : GoString) (a b : LabelMap) (h : AgreeOff key a b)
    (kv : GoString × GoString) (hkv : kv.1 ≠ key) : kv ∈ a ↔ kv ∈ b := by
  have ha : kv ∈ a ↔ kv ∈ a.filter (fun e => e.1 ≠ key) := by
    simp [List.mem_filter, hkv]
  have hb : kv ∈ b ↔ kv ∈ b.filter (fun e => e.1 ≠ key) := by
    simp [List.mem_filter, hkv]
  rw [ha, hb, h]

theorem assign_nodupKeys (m : LabelMap) (k v : GoString) (h : NodupKeys m) :
    NodupKeys (assign m k v) ∧ ∀ x, x ∈ (assign m k v).map Prod.fst ↔ x = k ∨ x ∈ m.map Prod.fst := by
  induction m with
  | nil =>
    unfold NodupKeys
    simp [assign]
  | cons kv rest ih =>
    obtain ⟨k', v'⟩ := kv
    have hnd : k' ∉ rest.map Prod.fst ∧ NodupKeys rest := by
      unfold NodupKeys at h ⊢
      simpa using h
    obtain ⟨ih1, ih2⟩ := ih hnd.2
    unfold assign
    by_cases hk : k' = k
    · subst hk
      simp only [if_true]
      constructor
      · exact h
      · intro x
        simp
    · simp only [if_neg hk]
      constructor
      · unfold NodupKeys at ih1 ⊢
        rw [List.map_cons, List.nodup_cons]
        refine ⟨?_, ih1⟩
        rw [ih2]
        rintro (h1 | h1)
        · exact hk h1
        · exact hnd.1 h1
      · intro x
        rw [List.map_cons, List.mem_cons, ih2, List.map_cons, List.mem_cons]
        constructor
        · rintro (h1 | h1 | h1)
          · exact Or.inr (Or.inl h1)
          · exact Or.inl h1
          · exact Or.inr (Or.inr h1)
        · rintro (h1 | h1 | h1)
          · exact Or.inr (Or.inl h1)
          · exact Or.inl h1
          · exact Or.inr (Or.inr h1)

theorem extractRouteLabels_nodupKeys (labels : LabelMap) (pfx : GoString) :
    NodupKeys (extractRouteLabels labels pfx) := by
  unfold extractRouteLabels
  have hgen : ∀ (l : LabelMap) (init : LabelMap), NodupKeys init →
      NodupKeys (l.foldl
        (fun routeLabels kv =>
          if hasPrefix kv.1 pfx then assign routeLabels (trimPrefix kv.1 pfx) kv.2
          else routeLabels) init) := by
    intro l
    induction l with
    | nil => intro init h; exact h
    | cons kv rest ih =>
      intro init h
      simp only [List.foldl_cons]
      apply ih
      split
      · exact (assign_nodupKeys init _ _ h).1
      · exact h
  apply hgen
  unfold NodupKeys
  simp

theorem mem_extractRouteLabels (labels : LabelMap) (pfx field value : GoString)
    (hnd : NodupKeys labels) :
    (field, value) ∈ extractRouteLabels labels pfx ↔ (pfx ++ field, value) ∈ labels := by
  rw [← lookup_eq_some_iff _ (extractRouteLabels_nodupKeys labels pfx),
    ← lookup_eq_some_iff _ hnd, lookup_extractRouteLabels _ _ _ hnd]

theorem nodup_of_nodupKeys (m : LabelMap) (h : NodupKeys m) : m.Nodup := by
  unfold NodupKeys at h
  exact List.Nodup.of_map Prod.fst h

/-- C22 (named routes are resolved independently).  For two distinct dot-free
route names `a` and `b`, the route emitted for `a` does not change when a
label `goma.routes.b.<field>` is added, removed or given another value, and
`a` stays a route name of the unit.  The stripped label map built for `a` has
pairwise distinct keys and contains exactly the entries `field`, `value` for
the entries `goma.routes.a.field`, `value` of the unit; another iteration order
of the unit's label map gives the same entries and the same route. -/
theorem named_routes_independent (labels labels' other : LabelMap) (a b field n : GoString)
    (ha : dot ∉ a) (hb : dot ∉ b) (hab : a ≠ b)
    (hagree : AgreeOff (bytes "goma.routes." ++ b ++ bytes "." ++ field) labels labels')
    (hnd : NodupKeys labels) (hperm : labels.Perm other) :
    parseNamedContainerRoute labels' a n = parseNamedContainerRoute labels a n ∧
    (∀ service, parseNamedServiceRoute service labels' a n =
      parseNamedServiceRoute service labels a n) ∧
    (a ∈ extractRouteNames labels' ↔ a ∈ extractRouteNames labels) ∧
    NodupKeys (extractRouteLabels labels (bytes "goma.routes." ++ a ++ bytes ".")) ∧
    (∀ f v, (f, v) ∈ extractRouteLabels labels (bytes "goma.routes." ++ a ++ bytes ".") ↔
      (bytes "goma.routes." ++ a ++ bytes "." ++ f, v) ∈ labels) ∧
    (extractRouteLabels other (bytes "goma.routes." ++ a ++ bytes ".")).Perm
      (extractRouteLabels labels (bytes "goma.routes." ++ a ++ bytes ".")) ∧
    parseNamedContainerRoute other a n = parseNamedContainerRoute labels a n := by
  have hkey := not_hasPrefix_other_route a b field ha hb hab
  have hlabels := extractRouteLabels_agreeOff_of_not_hasPrefix _ _ hkey labels labels' hagree
  have hroutes : hasPrefix (bytes "goma.routes." ++ b ++ bytes "." ++ field)
      (bytes "goma.routes.") = true := by
    rw [List.append_assoc, List.append_assoc]
    exact hasPrefix_append _ _
  have hscheme : bytes "goma.scheme" ≠ bytes "goma.routes." ++ b ++ bytes "." ++ field := by
    intro h
    rw [← h] at hroutes
    exact absurd hroutes (by decide)
  have hget := getLabel_agreeOff _ (bytes "goma.scheme") (bytes "http") hscheme labels labels'
    hagree
  refine ⟨?_, ?_, ?_, extractRouteLabels_nodupKeys _ _,
    fun f v => mem_extractRouteLabels labels _ f v hnd, ?_,
    (parseNamedContainerRoute_perm labels other hnd hperm a n).symm⟩
  · unfold parseNamedContainerRoute
    simp only [hlabels, hget]
  · intro service
    unfold parseNamedServiceRoute
    simp only [hlabels, hget]
  · rw [mem_extractRouteNames, mem_extractRouteNames]
    have hne : ∀ kv : GoString × GoString, ∀ f,
        kv.1 = bytes "goma.routes." ++ a ++ bytes "." ++ f →
        kv.1 ≠ bytes "goma.routes." ++ b ++ bytes "." ++ field := by
      intro kv f hk h
      have h1 : hasPrefix kv.1 (bytes "goma.routes." ++ a ++ bytes ".") = true := by
        rw [hk]
        exact hasPrefix_append _ _
      rw [h, hkey] at h1
      exact absurd h1 (by simp)
    constructor
    · rintro ⟨kv, hkv, f, hk, rest⟩
      exact ⟨kv, (mem_agreeOff _ _ _ hagree kv (hne kv f hk)).2 hkv, f, hk, rest⟩
    · rintro ⟨kv, hkv, f, hk, rest⟩
      exact ⟨kv, (mem_agreeOff _ _ _ hagree kv (hne kv f hk)).1 hkv, f, hk, rest⟩
  · rw [List.perm_ext_iff_of_nodup
      (nodup_of_nodupKeys _ (extractRouteLabels_nodupKeys _ _))
      (nodup_of_nodupKeys _ (extractRouteLabels_nodupKeys _ _))]
    rintro ⟨f, v⟩
    rw [mem_extractRouteLabels other _ f v (hnd.perm hperm),
      mem_extractRouteLabels labels _ f v hnd]
    exact hperm.symm.mem_iff
/-- Witness for C22: the label `goma.routes.api.port` is added to a unit with
the routes `web` and `api`; the route for `web` is the same, also when the
labels are visited in another order. -/
theorem named_routes_independent_witness :
    parseNamedContainerRoute
        [(bytes "goma.enable", bytes "true"), (bytes "goma.routes.web.path", bytes "/"),
          (bytes "goma.routes.api.path", bytes "/api"),
          (bytes "goma.routes.api.port", bytes "81")] (bytes "web") (bytes "app") =
      parseNamedContainerRoute
        [(bytes "goma.enable", bytes "true"), (bytes "goma.routes.web.path", bytes "/"),
          (bytes "goma.routes.api.path", bytes "/api")] (bytes "web") (bytes "app") ∧
    parseNamedContainerRoute
        [(bytes "goma.routes.api.path", bytes "/api"), (bytes "goma.enable", bytes "true"),
          (bytes "goma.routes.web.path", bytes "/")] (bytes "web") (bytes "app") =
      parseNamedContainerRoute
        [(bytes "goma.enable", bytes "true"), (bytes "goma.routes.web.path", bytes "/"),
          (bytes "goma.routes.api.path", bytes "/api")] (bytes "web") (bytes "app") := by
  have hnd : NodupKeys
      [(bytes "goma.enable", bytes "true"), (bytes "goma.routes.web.path", bytes "/"),
        (bytes "goma.routes.api.path", bytes "/api")] := by
    unfold NodupKeys
    decide
  obtain ⟨h1, -, -, -, -, -, h2⟩ := named_routes_independent
    [(bytes "goma.enable", bytes "true"), (bytes "goma.routes.web.path", bytes "/"),
      (bytes "goma.routes.api.path", bytes "/api")]
    [(bytes "goma.enable", bytes "true"), (bytes "goma.routes.web.path", bytes "/"),
      (bytes "goma.routes.api.path", bytes "/api"), (bytes "goma.routes.api.port", bytes "81")]
    [(bytes "goma.routes.api.path", bytes "/api"), (bytes "goma.enable", bytes "true"),
      (bytes "goma.routes.web.path", bytes "/")]
    (bytes "web") (bytes "api") (bytes "port") (bytes "app")
    (by decide) (by decide) (by decide) (by decide) hnd (by decide)
  exact ⟨h1, h2⟩

/-! ## Totality -/

theorem firstNameTail_eq_none (names : List GoString) :
    firstNameTail names = none ↔ names = [] ∨ names.head? = some [] := by
  cases names with
  | nil => simp [firstNameTail]
  | cons name rest =>
    cases name with
    | nil => simp [firstNameTail]
    | cons c s => simp [firstNameTail]

/-- C23 as amended (totality of `parseContainerLabels`).  On a container that
passes the gate, `container.Names[0][1:]` is in bounds exactly when the list of
reported names is non-empty and its first name is non-empty; then the function
returns a non-empty route list, also when the first name does not start with a
slash, and the identity is the first name without its first byte, `s` for the
name `/` followed by `s`. -/
theorem container_identity_total (container : Container)
    (hgate : lookup container.Labels (bytes "goma.enable") = some (bytes "true")) :
    (parseContainerLabels container = none ↔
      container.Names = [] ∨ container.Names.head? = some []) ∧
    (∀ c s rest, container.Names = (c :: s) :: rest →
      firstNameTail container.Names = some s ∧
      ∃ routes, parseContainerLabels container = some routes ∧ routes ≠ []) ∧
    (∀ s rest, firstNameTail ((bytes "/" ++ s) :: rest) = some s) := by
  have hidx := index_eq_of_lookup _ _ _ hgate
  refine ⟨?_, ?_, fun s rest => rfl⟩
  · rw [← firstNameTail_eq_none]
    unfold parseContainerLabels
    simp only [hidx, ne_eq, not_true_eq_false, if_false]
    cases firstNameTail container.Names with
    | none => simp
    | some n =>
      simp only [false_iff, reduceCtorEq]
      split <;> simp
  · intro c s rest hnames
    have hname : firstNameTail container.Names = some s := by
      rw [hnames]
      rfl
    refine ⟨hname, ?_⟩
    by_cases hnamed : extractRouteNames container.Labels = []
    · exact ⟨_, parseContainerLabels_single container s hgate hname hnamed, by simp⟩
    · refine ⟨_, parseContainerLabels_named container s hgate hname hnamed, ?_⟩
      simpa using hnamed

/-- Witness for C23 as amended: a gated container whose first name `app` has
no leading slash has identity `pp`. -/
theorem container_identity_total_witness :
    firstNameTail [bytes "app"] = some (bytes "pp") ∧
    ∃ routes,
      parseContainerLabels
          { Names := [bytes "app"], Labels := [(bytes "goma.enable", bytes "true")] } =
        some routes ∧ routes ≠ [] :=
  (container_identity_total
    { Names := [bytes "app"], Labels := [(bytes "goma.enable", bytes "true")] }
    (by decide)).2.1 _ _ _ rfl

/-- Counterexample to C23 as stated: a gated container with an empty list of
names, and one whose first name is the empty string, make
`parseContainerLabels` panic on `container.Names[0][1:]`. -/
theorem container_without_name_panics :
    lookup [(bytes "goma.enable", bytes "true")] (bytes "goma.enable") = some (bytes "true") ∧
    parseContainerLabels
        { Names := [], Labels := [(bytes "goma.enable", bytes "true")] } = none ∧
    parseContainerLabels
        { Names := [[]], Labels := [(bytes "goma.enable", bytes "true")] } = none := by
  decide

theorem namedServiceRoutes_eq_none (service : Service) (labels : LabelMap) (n : GoString)
    (routeNames : List GoString) (routes : List Route) :
    namedServiceRoutes service labels n routeNames routes = none ↔
      ∃ r ∈ routeNames, parseNamedServiceRoute service labels r n = none := by
  induction routeNames generalizing routes with
  | nil => simp [namedServiceRoutes]
  | cons r rest ih =>
    unfold namedServiceRoutes
    cases hr : parseNamedServiceRoute service labels r n with
    | none => simp [hr]
    | some route =>
      simp only [ih, List.mem_cons, exists_eq_or_imp, hr]
      simp

theorem servicePort_eq_none (service : Service) (port : GoString) :
    servicePort service port = none ↔ port = [] ∧ service.EndpointSpec = none := by
  unfold servicePort
  by_cases hp : port = []
  · simp only [hp, if_true, true_and]
    cases service.EndpointSpec with
    | none => simp
    | some ports => cases ports <;> simp
  · simp [hp]

theorem parseSingleServiceRoute_eq_none (service : Service) (labels : LabelMap)
    (n : GoString) :
    parseSingleServiceRoute service labels n = none ↔
      index labels (bytes "goma.port") = [] ∧ service.EndpointSpec = none := by
  rw [← servicePort_eq_none]
  unfold parseSingleServiceRoute
  simp only []
  cases servicePort service (index labels (bytes "goma.port")) <;> simp

theorem parseNamedServiceRoute_eq_none (service : Service) (labels : LabelMap)
    (r n : GoString) :
    parseNamedServiceRoute service labels r n = none ↔
      index (extractRouteLabels labels (bytes "goma.routes." ++ r ++ bytes "."))
        (bytes "port") = [] ∧ service.EndpointSpec = none := by
  rw [← servicePort_eq_none]
  unfold parseNamedServiceRoute
  simp only []
  cases servicePort service
    (index (extractRouteLabels labels (bytes "goma.routes." ++ r ++ bytes ".")) (bytes "port")) <;>
    simp

/-- C24 (totality of `parseServiceLabels`), the code on a nil endpoint
specification.  A service that passes the gate makes `parseServiceLabels`
panic exactly when its endpoint specification is nil and a port label it
needs is unset or empty: `goma.port` in single mode, `goma.routes.r.port` for
some route name `r` in named mode.  The service `orders` with the only label
`goma.enable=true` and a nil endpoint specification panics, where the claim
promises a route with port `80`. -/
theorem nil_endpoint_spec_panics (service : Service) :
    (lookup service.Labels (bytes "goma.enable") = some (bytes "true") →
      (parseServiceLabels service = none ↔
        service.EndpointSpec = none ∧
        ((extractRouteNames service.Labels = [] ∧
            index service.Labels (bytes "goma.port") = []) ∨
          ∃ r ∈ extractRouteNames service.Labels,
            index (extractRouteLabels service.Labels (bytes "goma.routes." ++ r ++ bytes "."))
              (bytes "port") = []))) ∧
    parseServiceLabels
        { Name := bytes "orders", Labels := [(bytes "goma.enable", bytes "true")],
          EndpointSpec := none } = none ∧
    parseServiceLabels
        { Name := bytes "orders",
          Labels := [(bytes "goma.enable", bytes "true"), (bytes "goma.port", bytes "")],
          EndpointSpec := none } = none ∧
    parseServiceLabels
        { Name := bytes "orders",
          Labels := [(bytes "goma.enable", bytes "true"),
            (bytes "goma.routes.web.path", bytes "/")],
          EndpointSpec := none } = none ∧
    (parseServiceLabels
        { Name := bytes "orders", Labels := [(bytes "goma.enable", bytes "true")],
          EndpointSpec := some [] }).map (List.map Route.Target) =
      some [bytes "http://orders:80"] := by
  refine ⟨?_, by decide, by decide, by decide, by decide⟩
  intro hgate
  have hidx := index_eq_of_lookup _ _ _ hgate
  unfold parseServiceLabels
  simp only [hidx, ne_eq, not_true_eq_false, if_false, List.length_eq_zero]
  by_cases hnamed : extractRouteNames service.Labels = []
  · simp only [hnamed, if_true, List.not_mem_nil, false_and, exists_false, or_false, true_and]
    cases hs : parseSingleServiceRoute service service.Labels service.Name with
    | none =>
      have := (parseSingleServiceRoute_eq_none _ _ _).1 hs
      simp [this.1, this.2]
    | some route =>
      simp only [reduceCtorEq, false_iff]
      intro h
      have := (parseSingleServiceRoute_eq_none service service.Labels service.Name).2 ⟨h.2, h.1⟩
      rw [hs] at this
      exact absurd this (by simp)
  · simp only [hnamed, if_false, false_and, false_or]
    rw [namedServiceRoutes_eq_none]
    constructor
    · rintro ⟨r, hr, hnone⟩
      have := (parseNamedServiceRoute_eq_none _ _ _ _).1 hnone
      exact ⟨this.2, r, hr, this.1⟩
    · rintro ⟨hnil, r, hr, hport⟩
      exact ⟨r, hr, (parseNamedServiceRoute_eq_none _ _ _ _).2 ⟨hport, hnil⟩⟩
end Goma
